import Mathlib

/-!
Verification of the sails-memory record store.

The development embeds, as executable Lean definitions, the criteria engine
of the bundled waterline-criteria module (getMatchIndices, applyFilter,
applySort, applySkip, applyLimit, matchSet, matchItem, matchLike,
matchLiteral) and the Database layer (setCollection, getCollection,
dropCollection, autoIncrement, enforceUniqueness, insert, update, destroy).
JavaScript numbers are modelled as rationals, strings as lists of character
codes, records as association lists in key insertion order, and undefined as
a missing key. Objects and arrays stored inside records are opaque heap
references identified by a numeric id, since the engine never inspects their
structure.
-/

namespace SailsMemory

/-- JavaScript values storable in a record. Numbers are rationals (every
claim exercises integral values only); obj and arr are opaque references. -/
inductive JsVal where
  | num (q : ℚ)
  | str (s : List Nat)
  | boolV (b : Bool)
  | nullV
  | obj (id : Nat)
  | arr (id : Nat)
deriving DecidableEq

/-- Character codes of a Lean string literal, used to write JS strings. -/
def strCodes (s : String) : List Nat := s.data.map Char.toNat

/-- JavaScript truthiness of a defined value; undefined is a missing key and
is handled at each use site. -/
def jsTruthy : JsVal → Bool
  | .num q => decide (q ≠ 0)
  | .str s => !s.isEmpty
  | .boolV b => b
  | .nullV => false
  | .obj _ => true
  | .arr _ => true

/-- Decimal digit run parser: none when a non-digit appears, otherwise the
accumulated value; the accumulator starts as none so a bare sign fails. -/
def parseDigits : List Nat → Option Nat → Option Nat
  | [], acc => acc
  | c :: rest, acc =>
    if 48 ≤ c ∧ c ≤ 57 then parseDigits rest (some ((acc.getD 0) * 10 + (c - 48)))
    else none

/-- JS ToNumber on a string, restricted to optionally signed decimal integer
literals; the empty string converts to 0 as in JS, anything else that is not
a plain integer literal is NaN (none). Fractional literals are outside the
model; no claim exercises them. Code 45 is the minus sign. -/
def parseJsNumber (s : List Nat) : Option ℚ :=
  match s with
  | [] => some 0
  | 45 :: rest => (parseDigits rest none).map (fun n => -(n : ℚ))
  | _ => (parseDigits s none).map (fun n => (n : ℚ))

/-- JS ToNumber of a value; none models NaN. Objects and arrays are modelled
as NaN, their primitive coercion is irrelevant to every claim. -/
def jsToNumber : JsVal → Option ℚ
  | .num q => some q
  | .str s => parseJsNumber s
  | .boolV b => some (if b then 1 else 0)
  | .nullV => some 0
  | .obj _ => none
  | .arr _ => none

/-- Decimal digits of a natural number, fueled to stay structural. -/
def natDigitsAux : Nat → Nat → List Nat
  | 0, _ => []
  | fuel + 1, n => if n < 10 then [48 + n] else natDigitsAux fuel (n / 10) ++ [48 + n % 10]

/-- Decimal text of a natural number. -/
def natCodes (n : Nat) : List Nat := natDigitsAux (n + 1) n

/-- Decimal text of an integer. -/
def intCodes : Int → List Nat
  | .ofNat n => natCodes n
  | .negSucc n => 45 :: natCodes (n + 1)

/-- JS string conversion of a possibly undefined value. Integral numbers get
their exact JS decimal text; non-integral rationals and arrays, which no
claim exercises, get a placeholder rendering. -/
def jsDisplay : Option JsVal → List Nat
  | some (.num q) =>
    if q.den = 1 then intCodes q.num else intCodes q.num ++ 47 :: natCodes q.den
  | some (.str s) => s
  | some (.boolV b) => strCodes (if b then "true" else "false")
  | some .nullV => strCodes "null"
  | some (.obj _) => strCodes "[object Object]"
  | some (.arr _) => strCodes "[array]"
  | none => strCodes "undefined"

/-- A record: association list from attribute names to values in key
insertion order, keys unique; a missing key models undefined. -/
abbrev Rec := List (String × JsVal)

/-- Association list lookup, first occurrence wins, mirroring JS property
access on objects with unique keys. -/
def alookup {β : Type} : List (String × β) → String → Option β
  | [], _ => none
  | p :: t, k => if p.1 = k then some p.2 else alookup t k

/-- Shallow merge modelling extend(dest, src): keys of dest keep their
position but take the src value when src also has the key; keys only in src
are appended in src order. -/
def recExtend (dest src : Rec) : Rec :=
  dest.map (fun p => (p.1, (alookup src p.1).getD p.2)) ++
    src.filter (fun p => (alookup dest p.1).isNone)

/-- Lexicographic strict order on JS strings by character code, the JS
relational comparison for two strings. -/
def strLtB : List Nat → List Nat → Bool
  | [], [] => false
  | [], _ :: _ => true
  | _ :: _, [] => false
  | a :: as_, b :: bs => a < b || (a == b && strLtB as_ bs)

/-- JS strict less-than: lexicographic when both operands are strings,
otherwise numeric after ToNumber with NaN comparing false. -/
def jsLtB (a b : JsVal) : Bool :=
  match a, b with
  | .str x, .str y => strLtB x y
  | _, _ =>
    match jsToNumber a, jsToNumber b with
    | some x, some y => decide (x < y)
    | _, _ => false

/-- JS less-or-equal under the same rules. -/
def jsLeB (a b : JsVal) : Bool :=
  match a, b with
  | .str x, .str y => !strLtB y x
  | _, _ =>
    match jsToNumber a, jsToNumber b with
    | some x, some y => decide (x ≤ y)
    | _, _ => false

/-- String begins-with test on code lists. -/
def strStartsWith (s p : List Nat) : Bool := decide (s.take p.length = p)

/-- String ends-with test on code lists. -/
def strEndsWith (s p : List Nat) : Bool := decide (s.drop (s.length - p.length) = p)

/-- Substring occurrence test on code lists. -/
def strContains : List Nat → List Nat → Bool
  | [], p => p.isEmpty
  | s@(_ :: rest), p => strStartsWith s p || strContains rest p

/-- startsWith comparator of the criteria module, applied to the JS string
forms of the two values. -/
def jsStartsWithB (a b : JsVal) : Bool :=
  strStartsWith (jsDisplay (some a)) (jsDisplay (some b))

/-- endsWith comparator of the criteria module. -/
def jsEndsWithB (a b : JsVal) : Bool :=
  strEndsWith (jsDisplay (some a)) (jsDisplay (some b))

/-- contains comparator of the criteria module. -/
def jsContainsB (a b : JsVal) : Bool :=
  strContains (jsDisplay (some a)) (jsDisplay (some b))

/-- Recognized operator keys of a sub-attribute criterion; the name and
symbol spellings of the source collapse to one constructor each. A criteria
object using an unrecognized operator key throws in the source and is
outside the embedded grammar. -/
inductive OpKey where
  | notOp | gtOp | geOp | ltOp | leOp | startsWithOp | endsWithOp | containsOp
deriving DecidableEq

/-- Comparator attached to each operator key, as passed to matchLiteral. On
this value model deep equality coincides with decidable equality. -/
def opFn : OpKey → (JsVal → JsVal → Bool)
  | .notOp => fun a b => !(decide (a = b))
  | .gtOp => fun a b => jsLtB b a
  | .geOp => fun a b => jsLeB b a
  | .ltOp => fun a b => jsLtB a b
  | .leOp => fun a b => jsLeB a b
  | .startsWithOp => jsStartsWithB
  | .endsWithOp => jsEndsWithB
  | .containsOp => jsContainsB

/-- The numeric cast at the head of matchLiteral: when the square of the JS
numeric coercion of the criterion is positive, that is, the coercion is a
nonzero finite number, the criterion is replaced by that number. -/
def literalCast (v : JsVal) : JsVal :=
  match jsToNumber v with
  | some q => if q ≠ 0 then .num q else v
  | none => v

/-- matchLiteral: cast the criterion, then require the attribute to exist on
the model and the comparator to accept the pair. -/
def matchLiteral (m : Rec) (k : String) (criterion : JsVal)
    (fn : JsVal → JsVal → Bool) : Bool :=
  let c := literalCast criterion
  match alookup m k with
  | none => false
  | some mv => fn mv c

/-- A criterion attached to an attribute key inside a where tree: a scalar,
an array for membership, or an object of operator entries. -/
inductive Criterion where
  | lit (v : JsVal)
  | inList (vs : List JsVal)
  | sub (ops : List (OpKey × JsVal))
deriving DecidableEq

mutual
/-- A where object: entries dispatched by key, conjunction overall. -/
inductive WhereC where
  | node (entries : List WEntry)
/-- One entry of a where object: the recognized special keys, or an
attribute key with its criterion. Like patterns are SQL style strings, the
ready-made regular expression alternative of the source is outside the
embedded grammar. -/
inductive WEntry where
  | orE (ds : List WhereC)
  | andE (cs : List WhereC)
  | notE (c : WhereC)
  | likeE (ps : List (String × List Nat))
  | attrE (k : String) (c : Criterion)
end

/-- A wildcard or literal token of the compiled like pattern. -/
inductive GlobTok where
  | wild
  | lit (c : Nat)
deriving DecidableEq

/-- First replace of matchLike: each left-to-right non-overlapping run of
three percent signs collapses to one percent, as the global JS replace does.
Code 37 is the percent sign. -/
def collapseTriples : List Nat → List Nat
  | 37 :: 37 :: 37 :: rest => 37 :: collapseTriples rest
  | c :: rest => c :: collapseTriples rest
  | [] => []

/-- Second replace of matchLike: every remaining percent becomes a wildcard
matching any run of characters, every other character a literal. Literal
characters carrying regex meta-meaning are outside the model; every claim
uses alphanumerics. -/
def globTokens (s : List Nat) : List GlobTok :=
  s.map (fun c => if c = 37 then .wild else .lit c)

/-- ASCII lower casing of one character code, the effect of the i flag on
the alphabet the claims use. -/
def lowerCode (c : Nat) : Nat := if 65 ≤ c ∧ c ≤ 90 then c + 32 else c

/-- Fueled anchored matcher of a token list against a string. -/
def globMatchAux : Nat → List GlobTok → List Nat → Bool
  | 0, _, _ => false
  | _ + 1, [], s => s.isEmpty
  | fuel + 1, .wild :: ts, s =>
    globMatchAux fuel ts s ||
      (match s with
       | [] => false
       | _ :: rest => globMatchAux fuel (.wild :: ts) rest)
  | fuel + 1, .lit c :: ts, s =>
    match s with
    | [] => false
    | d :: rest => (lowerCode c == lowerCode d) && globMatchAux fuel ts rest

/-- Anchored case-insensitive match of the compiled like pattern, modelling
the regular expression built from lead and tail anchors with the i flag.
The fuel strictly dominates the sum of both list lengths, so it never runs
out. -/
def globMatch (ts : List GlobTok) (s : List Nat) : Bool :=
  globMatchAux (ts.length + s.length + 1) ts s

/-- The index string a record value is matched against in matchLike: numbers
print as decimal text, booleans as the words true and false; objects,
arrays, null and undefined never match. -/
def likeIndex : Option JsVal → Option (List Nat)
  | some (.num q) => some (jsDisplay (some (.num q)))
  | some (.boolV b) => some (strCodes (if b then "true" else "false"))
  | some (.str s) => some s
  | _ => none

/-- One key of a like criterion: compile the pattern, coerce the value, and
match anchored case-insensitively. -/
def matchLikePair (m : Rec) (k : String) (pat : List Nat) : Bool :=
  match likeIndex (alookup m k) with
  | none => false
  | some s => globMatch (globTokens (collapseTriples pat)) s

/-- matchLike: every listed attribute pattern pair must match. -/
def matchLike (m : Rec) (ps : List (String × List Nat)) : Bool :=
  ps.all (fun p => matchLikePair m p.1 p.2)

/-- Conjunction of the operator entries of a sub-attribute criterion, each
applied through matchLiteral, mirroring matchSet called with a parent key. -/
def matchOps (m : Rec) (k : String) : List (OpKey × JsVal) → Bool
  | [] => true
  | p :: t => matchLiteral m k p.2 (opFn p.1) && matchOps m k t

/-- matchItem on a plain attribute key: an array is a membership test under
strict equality, an operator object is gated by validSubAttrCriteria, which
requires some operator value to be truthy, and anything else is a literal
match under deep equality. An operator object failing the gate falls back
to a literal deep-equality comparison against the object itself, which on
this value model never equals a stored record value. -/
def matchAttr (m : Rec) (k : String) : Criterion → Bool
  | .inList vs =>
    vs.any (fun v =>
      match alookup m k with
      | some mv => decide (mv = v)
      | none => false)
  | .sub ops => if ops.any (fun p => jsTruthy p.2) then matchOps m k ops else false
  | .lit v => matchLiteral m k v (fun a b => decide (a = b))

mutual
/-- matchSet: conjunction over the entries of a where object; the empty
object matches everything. -/
def matchSetC (m : Rec) : WhereC → Bool
  | .node es => matchEntries m es

/-- Conjunction over where entries. -/
def matchEntries (m : Rec) : List WEntry → Bool
  | [] => true
  | e :: es => matchEntryC m e && matchEntries m es

/-- matchItem dispatch on one where entry. -/
def matchEntryC (m : Rec) : WEntry → Bool
  | .orE ds => matchOrC m ds
  | .andE cs => matchAndC m cs
  | .notE c => !matchSetC m c
  | .likeE ps => matchLike m ps
  | .attrE k c => matchAttr m k c

/-- matchOr: true when any disjunct matches; the empty list gives false. -/
def matchOrC (m : Rec) : List WhereC → Bool
  | [] => false
  | d :: ds => matchSetC m d || matchOrC m ds

/-- matchAnd: true when all conjuncts match. -/
def matchAndC (m : Rec) : List WhereC → Bool
  | [] => true
  | c :: cs => matchSetC m c && matchAndC m cs
end

/-- A null or absent where tree matches everything. -/
def matchSetO (m : Rec) : Option WhereC → Bool
  | none => true
  | some w => matchSetC m w

/-- Query options: where tree (none models null), sort directives in
declaration order with MongoDB style numeric directions, then skip and
limit, where zero models the falsy no-op of the source for both. -/
structure QOptions where
  whereC : Option WhereC := none
  sortL : List (String × Int) := []
  skip : Nat := 0
  limit : Nat := 0

/-- Stable insertion of one element into an already processed list: the new
element goes before the first strictly greater element, after its equals. -/
def insertSorted {α : Type} (lt : α → α → Bool) (x : α) : List α → List α
  | [] => [x]
  | h :: t => if lt x h then x :: h :: t else h :: insertSorted lt x t

/-- Stable sort by a strict comparator, processing elements left to right,
the functional behavior of the underscore stable sortBy. -/
def sortByLt {α : Type} (lt : α → α → Bool) (l : List α) : List α :=
  l.foldl (fun acc x => insertSorted lt x acc) []

/-- Comparator on possibly undefined sort keys: underscore sortBy ranks
undefined after every defined value and keeps ties stable. -/
def jsLtOptB (a b : Option JsVal) : Bool :=
  match a, b with
  | some x, some y => jsLtB x y
  | some _, none => true
  | none, _ => false

/-- applySort of the criteria module: each directive in sequence performs a
stable full sort of the list by that attribute, then reverses the whole
list when the direction is -1. Directions other than 1 and -1, which the
source maps to an undefined comparator, are outside the model. -/
def applySort (data : List Rec) (sort : List (String × Int)) : List Rec :=
  sort.foldl
    (fun acc d =>
      let sorted := sortByLt (fun r r2 => jsLtOptB (alookup r d.1) (alookup r2 d.1)) acc
      if d.2 = -1 then sorted.reverse else sorted)
    data

/-- applySort acting on records paired with their original positions, the
form used inside getMatchIndices where each model carries its origindex. -/
def applySortIdx (data : List (Nat × Rec)) (sort : List (String × Int)) :
    List (Nat × Rec) :=
  sort.foldl
    (fun acc d =>
      let sorted :=
        sortByLt (fun p p2 => jsLtOptB (alookup p.2 d.1) (alookup p2.2 d.1)) acc
      if d.2 = -1 then sorted.reverse else sorted)
    data

/-- applySkip: a falsy skip leaves the list alone, otherwise drop that many
leading elements. -/
def applySkip {α : Type} (data : List α) (skip : Nat) : List α :=
  if skip = 0 then data else data.drop skip

/-- applyLimit: a falsy limit leaves the list alone, otherwise keep that
many leading elements. -/
def applyLimit {α : Type} (data : List α) (limit : Nat) : List α :=
  if limit = 0 then data else data.take limit

/-- getMatchIndices: remember original positions, filter by the where tree,
sort, skip, limit, then return the surviving original positions in order.
The temporary origindex field injected into each model by the source is
represented by pairing each record with its position. -/
def getMatchIndices (data : List Rec) (o : QOptions) : List Nat :=
  let ms := data.enum.filter (fun p => matchSetO p.2 o.whereC)
  let ms := applySortIdx ms o.sortL
  let ms := applySkip ms o.skip
  let ms := applyLimit ms o.limit
  ms.map Prod.fst

/-- The adapter update operation: shallow-merge the partial values into the
record at every position reported by getMatchIndices; the result set lists
the merged records in match order. -/
def adapterUpdate (data : List Rec) (o : QOptions) (values : Rec) :
    List Rec × List Rec :=
  let idxs := getMatchIndices data o
  (data.enum.map (fun p => if p.1 ∈ idxs then recExtend p.2 values else p.2),
   idxs.filterMap (fun i => (data.get? i).map (fun r => recExtend r values)))

/-- The adapter destroy operation: reject the records whose position appears
in getMatchIndices, keeping the rest in order. -/
def adapterDestroy (data : List Rec) (o : QOptions) : List Rec :=
  (data.enum.filter (fun p => decide (p.1 ∉ getMatchIndices data o))).map Prod.snd

/-- Attribute definition flags of a schema. -/
structure AttrDef where
  unique : Bool := false
  autoIncrement : Bool := false
  primaryKey : Bool := false
deriving DecidableEq

/-- A collection schema: attribute name to definition, insertion ordered. -/
abbrev Schema := List (String × AttrDef)

/-- The Database state: per collection data, schema and counters, keyed by
the collection name exactly as given, as properties of three JS objects. -/
structure DB where
  data : List (String × List Rec) := []
  schema : List (String × Schema) := []
  counters : List (String × List (String × ℚ)) := []
deriving DecidableEq

/-- Property assignment on a string keyed association list: replace the
value at the key when present, otherwise append the new pair. -/
def aset {β : Type} (l : List (String × β)) (k : String) (v : β) :
    List (String × β) :=
  if (alookup l k).isSome then l.map (fun p => if p.1 = k then (p.1, v) else p)
  else l ++ [(k, v)]

/-- Property deletion on a string keyed association list. -/
def adelete {β : Type} (l : List (String × β)) (k : String) :
    List (String × β) :=
  l.filter (fun p => !(p.1 == k))

/-- Options accepted by setCollection; the optional seed data of the source
is concatenated into a discarded copy, a no-op kept out of the model. -/
structure SetOptions where
  definition : Option Schema := none

/-- setCollection: keep any existing records and counters for the name,
defaulting both to empty, and store the supplied definition, defaulting to
the empty schema. The collection name is used exactly as given. -/
def setCollection (db : DB) (name : String) (o : SetOptions) : DB :=
  let dataL := (alookup db.data name).getD []
  let ctrs := (alookup db.counters name).getD []
  let sch := o.definition.getD []
  { data := aset db.data name dataL
    counters := aset db.counters name ctrs
    schema := aset db.schema name sch }

/-- The view getCollection hands back, with empty defaults; the defaulting
never writes back into the state. The source defaults a missing entry to an
empty object, rendered here as the empty list. -/
structure CollectionView where
  dataV : List Rec
  schemaV : Schema
  countersV : List (String × ℚ)
deriving DecidableEq

/-- getCollection: read the three maps at the exact name given. -/
def getCollection (db : DB) (name : String) : CollectionView :=
  { dataV := (alookup db.data name).getD []
    schemaV := (alookup db.schema name).getD []
    countersV := (alookup db.counters name).getD [] }

/-- describe: the schema map when it has at least one key, otherwise an
explicit no-schema signal. -/
def describe (db : DB) (name : String) : Option Schema :=
  let sch := (getCollection db name).schemaV
  if 0 < sch.length then some sch else none

/-- dropCollection: delete the data and schema entries of the named
collection and of every listed relation; the counters maps are left in
place. -/
def dropCollection (db : DB) (name : String) (relations : List String) : DB :=
  let db1 : DB :=
    { data := adelete db.data name
      schema := adelete db.schema name
      counters := db.counters }
  relations.foldl
    (fun acc rel =>
      { data := adelete acc.data rel
        schema := adelete acc.schema rel
        counters := acc.counters })
    db1

/-- getPrimaryKey: the last schema attribute flagged primaryKey, since the
each loop overwrites earlier candidates. -/
def getPrimaryKey (sch : Schema) : Option String :=
  sch.foldl (fun acc p => if p.2.primaryKey then some p.1 else acc) none

/-- One uniqueness violation entry: attribute name and offending value. -/
structure UErr where
  attrName : String
  value : JsVal
deriving DecidableEq

/-- Collision test of one candidate record against one stored record for
one unique attribute: an undefined candidate value never collides; a
strictly equal stored value collides unless the same-record exemption
applies, which compares primary key values when the candidate carries one
and otherwise consults the caller supplied updated id list. -/
def collideCheck (pk : Option String) (updatedIds : Option (List JsVal))
    (values : Rec) (attrName : String) (d : Rec) : Option UErr :=
  match alookup values attrName with
  | none => none
  | some v =>
    match alookup d attrName with
    | some dv =>
      if v = dv then
        match pk.bind (alookup values) with
        | none =>
          match updatedIds with
          | some ids =>
            (match pk.bind (alookup d) with
             | some dpk => if dpk ∈ ids then none else some ⟨attrName, v⟩
             | none => some ⟨attrName, v⟩)
          | none => some ⟨attrName, v⟩
        | some pv =>
          if pk.bind (alookup d) = some pv then none else some ⟨attrName, v⟩
      else none
    | none => none

/-- enforceUniqueness: scan every unique schema attribute against every
stored record, collecting the violations in attribute major order. -/
def enforceUniqueness (db : DB) (name : String) (values : Rec)
    (updatedIds : Option (List JsVal)) : List UErr :=
  let sch := (alookup db.schema name).getD []
  let dat := (alookup db.data name).getD []
  let pk := getPrimaryKey sch
  sch.flatMap (fun p =>
    if p.2.unique then dat.filterMap (collideCheck pk updatedIds values p.1)
    else [])

/-- One auto-increment attribute step: a truthy supplied value leaves the
record alone and raises the counter when the counter is falsy or the value
exceeds it; a falsy or absent value bumps the counter, a falsy counter
counting as zero, and writes the new counter value into the record. A
supplied value whose JS numeric coercion is NaN would poison the stored
counter and is outside the model; every claim supplies numbers. -/
def aiStep (values : Rec) (ctr : List (String × ℚ)) (attr : String) :
    Rec × List (String × ℚ) :=
  let c := (alookup ctr attr).getD 0
  match alookup values attr with
  | some v =>
    if jsTruthy v then
      let raise : Bool :=
        (c == 0) || (match jsToNumber v with | some x => decide (c < x) | none => false)
      (values, if raise then aset ctr attr ((jsToNumber v).getD 0) else ctr)
    else (aset values attr (.num (c + 1)), aset ctr attr (c + 1))
  | none => (aset values attr (.num (c + 1)), aset ctr attr (c + 1))

/-- Database.prototype.autoIncrement over every flagged schema attribute, in
schema order, returning the new state and the completed record. -/
def dbAutoIncrement (db : DB) (name : String) (values : Rec) : DB × Rec :=
  let sch := (alookup db.schema name).getD []
  let ctr0 := (alookup db.counters name).getD []
  let res := sch.foldl
    (fun acc p => if p.2.autoIncrement then aiStep acc.1 acc.2 p.1 else acc)
    (values, ctr0)
  ({ db with counters := aset db.counters name res.2 }, res.1)

/-- Error results of insert. -/
inductive InsErr where
  | collectionNotRegistered
  | uniqueness (es : List UErr)
deriving DecidableEq

/-- The record by record loop of insert: each record is checked against the
current data, including records appended earlier in the same call; the
first record with violations stops the loop before being appended and the
call reports the violations, while earlier appends stay. The
serializeValues stage, which only reparses values of schema type json, is
outside the model since no claim and no modelled schema uses that type. -/
def insertLoop (db : DB) (name : String) :
    List Rec → DB × Except InsErr (List Rec)
  | [] => (db, .ok [])
  | r :: rs =>
    let errs := enforceUniqueness db name r none
    if errs.isEmpty then
      let step := dbAutoIncrement db name r
      match alookup step.1.data name with
      | none => (step.1, .error .collectionNotRegistered)
      | some dat =>
        let db2 : DB := { step.1 with data := aset step.1.data name (dat ++ [step.2]) }
        match insertLoop db2 name rs with
        | (db3, .ok rest) => (db3, .ok (step.2 :: rest))
        | (db3, .error e) => (db3, .error e)
    else (db, .error (.uniqueness errs))

/-- Database.prototype.insert on a list of candidate records; a single
record call is the one element list. -/
def dbInsert (db : DB) (name : String) (vals : List Rec) :
    DB × Except InsErr (List Rec) :=
  insertLoop db name vals

/-- Reference level model for the copy-on-return claim: the heap stores
record objects at numeric references and a collection holds references,
never values. -/
structure HeapDB where
  heap : List Rec
  coll : List Nat
deriving DecidableEq

/-- insert at reference level, following Database.prototype.insert, which
pushes the very record object it was handed and hands the same object back
through the callback: the caller reference is appended to the collection
and returned unchanged, no copy is taken. -/
def hInsert (h : HeapDB) (p : Nat) : HeapDB × Nat :=
  ({ h with coll := h.coll ++ [p] }, p)

/-- Mutation of the record object behind a reference, as a caller would
mutate an object a call returned. -/
def hWrite (h : HeapDB) (p : Nat) (r : Rec) : HeapDB :=
  { h with heap := h.heap.set p r }

/-- A later read of the collection: stored objects are dereferenced at read
time, so aliasing with caller held references is observable. -/
def hSelectAll (h : HeapDB) : List Rec :=
  h.coll.map (fun p => (h.heap.get? p).getD [])

/-- Aggregation request facets relevant to the average claim; an absent
option is modelled as the empty list. The sum, min and max reducers of the
same aggregation block are not needed by any claim and are outside the
model. -/
structure AggOptions where
  groupByL : List String := []
  averageL : List String := []

/-- Group key built by the group collector of the aggregation block in the
find method of the legacy adapter: the stringified groupBy values each
followed by the fixed three dash delimiter, in groupBy order. -/
def groupKey (ks : List String) (r : Rec) : List Nat :=
  ks.foldl (fun acc k => acc ++ jsDisplay (alookup r k) ++ strCodes "---") []

/-- Distinct keys in first appearance order, the iteration order of the JS
group collector object. -/
def dedupKeys (l : List (List Nat)) : List (List Nat) :=
  l.foldl (fun acc k => if k ∈ acc then acc else acc ++ [k]) []

/-- A value produced by the aggregation stage: an ordinary JS value, or the
NaN that the unguarded average division produces. NaN never flows back into
the criteria engine in any claim, so it lives only in aggregation output. -/
inductive AggVal where
  | ofJs (v : JsVal)
  | nanA
deriving DecidableEq

/-- One output record of the aggregation stage. -/
abbrev AggRec := List (String × AggVal)

/-- The average value the source computes for one attribute over one group
(the average stage of the aggregation block in the legacy adapter find):
the stub value starts at 0, every numeric value of the attribute in the
group is added into it and counted, and the accumulated value is finally
divided by the count in place, with no guard. When the count is zero the
accumulated sum is necessarily still zero, since the same numeric test
gates both, so the JS division is exactly 0/0, which is NaN; otherwise the
result is the arithmetic sum divided by the count of numeric values
encountered, never by the group size. -/
def avgVal (g : List Rec) (k : String) : AggVal :=
  let nums : List ℚ := g.filterMap (fun (r : Rec) =>
    match alookup r k with
    | some (.num q) => some q
    | _ => none)
  if nums.isEmpty then .nanA else .ofJs (.num (nums.sum / (nums.length : ℚ)))

/-- The grouping and average stages of the aggregation block in the find
method of the legacy adapter: records are partitioned by group key in first
appearance order; each group yields one stub seeded with the groupBy values
of the first group member, an undefined groupBy value leaving the key
absent; every attribute listed under average is then set to its average
value over the group, overwriting any seeded value as the zero-fill and
in-place division of the source do. Without groupBy there is one group of
all results and an empty stub. A repeated attribute under average, which no
claim exercises, would re-accumulate on top of the already divided value in
the source and is outside the model. -/
def aggAverage (o : AggOptions) (results : List Rec) : List AggRec :=
  let groups :=
    if o.groupByL.isEmpty then [results]
    else (dedupKeys (results.map (groupKey o.groupByL))).map
      (fun k => results.filter (fun r => groupKey o.groupByL r == k))
  groups.map (fun g =>
    let stub : AggRec :=
      if o.groupByL.isEmpty then []
      else o.groupByL.foldl
        (fun acc k =>
          match alookup (g.headD []) k with
          | some v => aset acc k (.ofJs v)
          | none => acc)
        []
    o.averageL.foldl (fun acc k => aset acc k (avgVal g k)) stub)

/-- The like pattern compiler read directly from the specification words,
kept beside the source compiled form to exhibit their divergence on escaped
percent signs: three percent signs give a literal percent token, every
other percent a wildcard. -/
def specEscapeTokens : List Nat → List GlobTok
  | 37 :: 37 :: 37 :: rest => .lit 37 :: specEscapeTokens rest
  | 37 :: rest => .wild :: specEscapeTokens rest
  | c :: rest => .lit c :: specEscapeTokens rest
  | [] => []

/-- Like matching of one value as the specification describes it. -/
def specLikeMatch (pat : List Nat) (v : JsVal) : Bool :=
  match likeIndex (some v) with
  | none => false
  | some s => globMatch (specEscapeTokens pat) s

deriving instance DecidableEq for Except

/-- The same-record exemption enforceUniqueness grants during insert, where
no updated id list is supplied: the candidate carries a primary key value
and the stored record carries a strictly equal one. -/
def insertExempt (sch : Schema) (values d : Rec) : Bool :=
  match (getPrimaryKey sch).bind (alookup values) with
  | none => false
  | some pv => decide ((getPrimaryKey sch).bind (alookup d) = some pv)

/-- Repeated single record insert of the empty record, which omits every
attribute, used to state the auto-increment sequence property. -/
def insertEmptyN (db : DB) (name : String) : Nat → DB
  | 0 => db
  | n + 1 => (dbInsert (insertEmptyN db name n) name [[]]).1

/-- Fixture: a collection with a primary key attribute and a unique name
attribute, holding one record. -/
def dbPkFix : DB :=
  { data := [("user", [[("id", .num 1), ("name", .str (strCodes "a"))]])]
    schema := [("user", [("id", ⟨false, false, true⟩), ("name", ⟨true, false, false⟩)])]
    counters := [("user", [])] }

/-- Fixture: an empty collection whose only schema attribute is unique. -/
def dbBatchFix : DB :=
  { data := [("u", [])]
    schema := [("u", [("name", ⟨true, false, false⟩)])]
    counters := [("u", [])] }

/-- Fixture: an empty collection whose only schema attribute is flagged
auto-increment. -/
def dbAiFix : DB :=
  { data := [("c", [])]
    schema := [("c", [("A", ⟨false, true, false⟩)])]
    counters := [("c", [])] }

/-- Fixture: a collection whose auto-increment counter already stands at
five. -/
def dbCtrFix : DB :=
  { data := [("c", [])]
    schema := [("c", [("A", ⟨false, true, false⟩)])]
    counters := [("c", [("A", 5)])] }

/-- Fixture: two records both satisfying the predicate x equals zero. -/
def twoZeros : List Rec := [[("x", .num 0)], [("x", .num 0)]]

/-- Fixture: criteria whose where facet matches x equals zero and whose
limit facet is one. -/
def optsLim1 : QOptions :=
  { whereC := some (.node [.attrE "x" (.lit (.num 0))]), limit := 1 }


end SailsMemory

namespace SailsMemory

/-! Helper lemmas about association list primitives. -/

theorem alookup_append_of_none {β : Type} {l : List (String × β)} {k : String}
    (h : alookup l k = none) (m : List (String × β)) :
    alookup (l ++ m) k = alookup m k := by
  induction l with
  | nil => rfl
  | cons p t ih =>
    by_cases hp : p.1 = k
    · simp [alookup, hp] at h
    · simp only [alookup, hp, if_false, List.cons_append, if_neg hp] at h ⊢
      exact ih h

theorem alookup_map_set {β : Type} {l : List (String × β)} {k : String}
    (h : (alookup l k).isSome) (v : β) :
    alookup (l.map (fun p => if p.1 = k then (p.1, v) else p)) k = some v := by
  induction l with
  | nil => simp [alookup] at h
  | cons p t ih =>
    by_cases hp : p.1 = k
    · simp [alookup, hp]
    · simp only [alookup, if_neg hp] at h
      simpa [alookup, hp] using ih h

theorem alookup_aset_self {β : Type} (l : List (String × β)) (k : String) (v : β) :
    alookup (aset l k v) k = some v := by
  unfold aset
  by_cases h : (alookup l k).isSome
  · rw [if_pos h]
    exact alookup_map_set h v
  · rw [if_neg h]
    have hn : alookup l k = none := by
      cases hl : alookup l k
      · rfl
      · rw [hl] at h; simp at h
    rw [alookup_append_of_none hn]
    simp [alookup]

theorem alookup_map_set_ne {β : Type} (l : List (String × β)) {k k2 : String} (v : β)
    (h : k2 ≠ k) :
    alookup (l.map (fun p => if p.1 = k then (p.1, v) else p)) k2 = alookup l k2 := by
  induction l with
  | nil => rfl
  | cons p t ih =>
    simp only [List.map_cons]
    by_cases hp : p.1 = k
    · have hpk : p.1 ≠ k2 := fun hc => h (by rw [← hc, hp])
      rw [if_pos hp]
      show (if p.1 = k2 then some v else _) = _
      rw [if_neg hpk]
      simp only [alookup, if_neg hpk]
      exact ih
    · rw [if_neg hp]
      by_cases hp2 : p.1 = k2
      · simp only [alookup, if_pos hp2]
      · simp only [alookup, if_neg hp2]
        exact ih

theorem alookup_append {β : Type} (l m : List (String × β)) (k : String) :
    alookup (l ++ m) k =
      (match alookup l k with
       | some v => some v
       | none => alookup m k) := by
  induction l with
  | nil => simp [alookup]
  | cons p t ih =>
    by_cases hp : p.1 = k
    · simp [alookup, hp]
    · simpa [alookup, hp] using ih

theorem alookup_aset_ne {β : Type} (l : List (String × β)) {k k2 : String} (v : β)
    (h : k2 ≠ k) : alookup (aset l k v) k2 = alookup l k2 := by
  unfold aset
  by_cases hs : (alookup l k).isSome
  · rw [if_pos hs]
    exact alookup_map_set_ne l v h
  · rw [if_neg hs, alookup_append]
    have hk : ¬(k = k2) := fun hc => h hc.symm
    cases hl : alookup l k2 with
    | none => simp [alookup, hk]
    | some w => simp

theorem alookup_adelete_self {β : Type} (l : List (String × β)) (k : String) :
    alookup (adelete l k) k = none := by
  induction l with
  | nil => rfl
  | cons p t ih =>
    unfold adelete at ih ⊢
    rw [List.filter_cons]
    by_cases hp : p.1 = k
    · have hb : (!(p.1 == k)) = false := by simp [hp]
      rw [hb, if_neg (by simp)]
      exact ih
    · have hb : (!(p.1 == k)) = true := by simp [hp]
      rw [if_pos hb]
      simp only [alookup, if_neg hp]
      exact ih

theorem alookup_adelete_ne {β : Type} (l : List (String × β)) {k k2 : String}
    (h : k2 ≠ k) : alookup (adelete l k) k2 = alookup l k2 := by
  induction l with
  | nil => rfl
  | cons p t ih =>
    unfold adelete at ih ⊢
    rw [List.filter_cons]
    by_cases hp : p.1 = k
    · have hpk : p.1 ≠ k2 := fun hc => h (by rw [← hc, hp])
      have hb : (!(p.1 == k)) = false := by simp [hp]
      rw [hb, if_neg (by simp)]
      rw [ih]
      simp only [alookup, if_neg hpk]
    · have hb : (!(p.1 == k)) = true := by simp [hp]
      rw [if_pos hb]
      by_cases hp2 : p.1 = k2
      · simp only [alookup, if_pos hp2]
      · simp only [alookup, if_neg hp2]
        exact ih

theorem alookup_none_adelete {β : Type} {l : List (String × β)} {k : String}
    (h : alookup l k = none) (k2 : String) : alookup (adelete l k2) k = none := by
  induction l with
  | nil => rfl
  | cons p t ih =>
    by_cases hp : p.1 = k
    · simp [alookup, hp] at h
    · simp only [alookup, if_neg hp] at h
      by_cases hp2 : p.1 = k2
      · simpa [adelete, hp2] using ih h
      · simpa [adelete, alookup, hp2, hp] using ih h

/-! Claim C6. -/

/-- Claim C6, evaluated at the failing input. Database.prototype.insert
appends the very record object it was handed and returns that same object,
so at reference level the returned record aliases the stored one: writing
through the reference insert returned changes what a later read of the
collection yields, contradicting the independent deep copy the claim
demands. -/
theorem claim_C6_alias :
    (hInsert ⟨[[("a", JsVal.num 1)]], []⟩ 0).2 = 0 ∧
    hSelectAll (hInsert ⟨[[("a", JsVal.num 1)]], []⟩ 0).1 = [[("a", JsVal.num 1)]] ∧
    hSelectAll
        (hWrite (hInsert ⟨[[("a", JsVal.num 1)]], []⟩ 0).1
          (hInsert ⟨[[("a", JsVal.num 1)]], []⟩ 0).2 [("a", JsVal.num 2)]) =
      [[("a", JsVal.num 2)]] ∧
    ([[("a", JsVal.num 2)]] : List Rec) ≠ [[("a", JsVal.num 1)]] :=
  ⟨rfl, rfl, rfl, by decide⟩

/-! Claim C9. -/

/-- Claim C9 counterexample: a collection defined under the name Users is
not addressable as users; describe under the other casing reports no
schema, so names are not normalized and lookup is not case-insensitive. -/
theorem claim_C9_counterexample :
    describe (setCollection ⟨[], [], []⟩ "Users"
        ⟨some [("id", ⟨false, false, true⟩)]⟩) "users" = none ∧
    describe (setCollection ⟨[], [], []⟩ "Users"
        ⟨some [("id", ⟨false, false, true⟩)]⟩) "Users" =
      some [("id", ⟨false, false, true⟩)] ∧
    getCollection (setCollection ⟨[], [], []⟩ "Users"
        ⟨some [("id", ⟨false, false, true⟩)]⟩) "users" = ⟨[], [], []⟩ :=
  ⟨rfl, rfl, rfl⟩

/-- Claim C9 amended: collection names are used exactly as given, with no
normalization: a collection is addressable only under the very string it
was stored under, and operations under any other string, which includes
every other casing, read the untouched entry for that other string. -/
theorem claim_C9_amended :
    (∀ (db : DB) (name : String) (o : SetOptions),
      getCollection (setCollection db name o) name =
        ⟨(alookup db.data name).getD [], o.definition.getD [],
          (alookup db.counters name).getD []⟩) ∧
    (∀ (db : DB) (name other : String) (o : SetOptions), other ≠ name →
      getCollection (setCollection db name o) other = getCollection db other) := by
  constructor
  · intro db name o
    simp [getCollection, setCollection, alookup_aset_self]
  · intro db name other o h
    simp [getCollection, setCollection, alookup_aset_ne _ _ h]

/-- Witness for the amended C9 theorem at a concrete pair of casings. -/
theorem claim_C9_amended_witness :
    ("users" : String) ≠ "Users" ∧
    getCollection (setCollection ⟨[], [], []⟩ "Users"
        ⟨some [("id", ⟨false, false, true⟩)]⟩) "users" =
      getCollection ⟨[], [], []⟩ "users" :=
  ⟨by decide, claim_C9_amended.2 _ _ _ _ (by decide)⟩

/-! Claim C2 counterexample. -/

/-- Claim C2 counterexample: both stored records satisfy the where
predicate, yet with a limit of one in the criteria the update merges the
partial values into only the first record and destroy removes only the
first record, so the pagination facets do change which records are mutated
and removed. -/
theorem claim_C2_counterexample :
    matchSetO [("x", JsVal.num 0)] optsLim1.whereC = true ∧
    (adapterUpdate twoZeros optsLim1 [("y", JsVal.num 1)]).1 =
      [[("x", JsVal.num 0), ("y", JsVal.num 1)], [("x", JsVal.num 0)]] ∧
    alookup ((adapterUpdate twoZeros optsLim1 [("y", JsVal.num 1)]).1.getD 1 []) "y" =
      none ∧
    adapterDestroy twoZeros optsLim1 = [[("x", JsVal.num 0)]] :=
  ⟨by decide, by decide, by decide, by decide⟩

/-! Claim C7. -/

/-- Claim C7 counterexample: the source compiles the escaped percent away,
because the triple percent is first collapsed to a single percent and the
wildcard replacement then consumes that percent too; the pattern 100 with
an escaped trailing percent therefore matches the string 1000, which holds
no percent sign at all, while the escaped literal reading of the
specification rejects it. -/
theorem claim_C7_counterexample :
    matchLike [("x", JsVal.str (strCodes "1000"))] [("x", strCodes "100%%%")] = true ∧
    specLikeMatch (strCodes "100%%%") (JsVal.str (strCodes "1000")) = false ∧
    37 ∉ strCodes "1000" :=
  ⟨by decide, by decide, by decide⟩

/-- Claim C7 amended: like matching is case-insensitive and anchored at
both ends, every percent matches any run of characters, and a triple
percent collapses to a single percent that then acts as a wildcard like any
other, the escape being ineffective; numeric record values are matched
against their decimal text and booleans against the words true and false;
object and array valued attributes never match; the pattern percent-oo-
percent matches foo and boot but not bar. -/
theorem claim_C7_amended :
    matchLike [("x", JsVal.str (strCodes "foo"))] [("x", strCodes "%oo%")] = true ∧
    matchLike [("x", JsVal.str (strCodes "boot"))] [("x", strCodes "%oo%")] = true ∧
    matchLike [("x", JsVal.str (strCodes "bar"))] [("x", strCodes "%oo%")] = false ∧
    matchLike [("x", JsVal.str (strCodes "FOO"))] [("x", strCodes "%oo%")] = true ∧
    matchLike [("x", JsVal.str (strCodes "foo"))] [("x", strCodes "%OO%")] = true ∧
    matchLike [("x", JsVal.str (strCodes "foo"))] [("x", strCodes "oo")] = false ∧
    matchLike [("x", JsVal.str (strCodes "oo"))] [("x", strCodes "oo")] = true ∧
    matchLike [("x", JsVal.num 123)] [("x", strCodes "12%")] = true ∧
    matchLike [("x", JsVal.boolV true)] [("x", strCodes "tru%")] = true ∧
    matchLike [("x", JsVal.boolV false)] [("x", strCodes "%als%")] = true ∧
    matchLike [("x", JsVal.str (strCodes "100%"))] [("x", strCodes "100%%%")] = true ∧
    matchLike [("x", JsVal.str (strCodes "1000"))] [("x", strCodes "100%%%")] = true ∧
    (∀ (p : List Nat) (i : Nat),
      matchLike [("x", JsVal.obj i)] [("x", p)] = false) ∧
    (∀ (p : List Nat) (i : Nat),
      matchLike [("x", JsVal.arr i)] [("x", p)] = false) := by
  refine ⟨by decide, by decide, by decide, by decide, by decide, by decide, by decide,
    by decide, by decide, by decide, by decide, by decide, ?_, ?_⟩
  · intro p i
    simp [matchLike, matchLikePair, alookup, likeIndex]
  · intro p i
    simp [matchLike, matchLikePair, alookup, likeIndex]

/-! Claim C8. -/

/-- Claim C8 counterexample: the scalar criterion holding the string 5
matches a record whose attribute is the number 5, although the two values
are not equal, because matchLiteral casts a criterion whose numeric
coercion is a nonzero finite number before comparing. -/
theorem claim_C8_counterexample :
    matchAttr [("x", JsVal.num 5)] "x" (.lit (.str (strCodes "5"))) = true ∧
    alookup [("x", JsVal.num 5)] "x" = some (JsVal.num 5) ∧
    JsVal.num 5 ≠ JsVal.str (strCodes "5") :=
  ⟨by decide, by decide, by decide⟩

/-- Claim C8 amended: a list criterion is a membership test under strict
equality with no coercion, so there a string never matches a number; a
scalar criterion is compared by deep equality only after the numeric cast
of matchLiteral: a criterion whose JS numeric coercion is a nonzero finite
number, such as a numeric string or the boolean true, is replaced by that
number first, so the string 5 matches exactly the numeric value 5 and the
boolean true matches exactly the number 1, while criteria coercing to 0 or
NaN are compared unchanged; a missing attribute never matches. -/
theorem claim_C8_amended :
    (∀ (m : Rec) (k : String) (vs : List JsVal),
      matchAttr m k (.inList vs) = true ↔ ∃ v ∈ vs, alookup m k = some v) ∧
    (∀ (m : Rec) (k : String) (v : JsVal),
      jsToNumber v = none ∨ jsToNumber v = some 0 →
      (matchAttr m k (.lit v) = true ↔ alookup m k = some v)) ∧
    (∀ (m : Rec) (k : String) (s : List Nat) (x : ℚ),
      parseJsNumber s = some x → x ≠ 0 →
      (matchAttr m k (.lit (.str s)) = true ↔ alookup m k = some (.num x))) ∧
    (∀ (m : Rec) (k : String),
      matchAttr m k (.lit (.boolV true)) = true ↔ alookup m k = some (.num 1)) := by
  refine ⟨?_, ?_, ?_, ?_⟩
  · intro m k vs
    cases h : alookup m k with
    | none => simp [matchAttr, h]
    | some mv =>
      simp only [matchAttr, h, List.any_eq_true, decide_eq_true_eq]
      constructor
      · rintro ⟨v, hv, he⟩; exact ⟨v, hv, by rw [he]⟩
      · rintro ⟨v, hv, he⟩; exact ⟨v, hv, by injection he⟩
  · intro m k v hv
    have hcast : literalCast v = v := by
      rcases hv with h | h <;> simp [literalCast, h]
    cases h : alookup m k with
    | none => simp [matchAttr, matchLiteral, h]
    | some mv => simp [matchAttr, matchLiteral, h, hcast, eq_comm]
  · intro m k s x hs hx
    have hcast : literalCast (.str s) = .num x := by
      simp [literalCast, jsToNumber, hs, hx]
    cases h : alookup m k with
    | none => simp [matchAttr, matchLiteral, h]
    | some mv => simp [matchAttr, matchLiteral, h, hcast, eq_comm]
  · intro m k
    have hcast : literalCast (.boolV true) = .num 1 := by decide
    cases h : alookup m k with
    | none => simp [matchAttr, matchLiteral, h]
    | some mv => simp [matchAttr, matchLiteral, h, hcast, eq_comm]

/-- Witness for the amended C8 theorem: every part applied at a concrete
input with its hypotheses discharged. -/
theorem claim_C8_amended_witness :
    matchAttr [("x", JsVal.num 5)] "x" (.inList [JsVal.num 5]) = true ∧
    matchAttr [("x", JsVal.str (strCodes "a"))] "x"
      (.lit (.str (strCodes "a"))) = true ∧
    matchAttr [("x", JsVal.num 5)] "x" (.lit (.str (strCodes "5"))) = true ∧
    matchAttr [("x", JsVal.num 1)] "x" (.lit (.boolV true)) = true := by
  refine ⟨?_, ?_, ?_, ?_⟩
  · exact (claim_C8_amended.1 _ _ _).mpr ⟨JsVal.num 5, by decide, by decide⟩
  · exact (claim_C8_amended.2.1 _ _ _ (by decide)).mpr (by decide)
  · exact (claim_C8_amended.2.2.1 _ _ (strCodes "5") 5 (by decide) (by decide)).mpr
      (by decide)
  · exact (claim_C8_amended.2.2.2 _ _).mpr (by decide)

/-! Claim C1 counterexample. -/

/-- Claim C1 counterexample: sorting two records by the directive sequence
a ascending then b ascending leaves the record with the larger a value in
front, because each directive re-sorts the whole list and the last listed
directive therefore dominates; the lexicographic first-key-primary order
the claim demands would place the record with a equal to one first. -/
theorem claim_C1_counterexample :
    applySort
        [[("a", JsVal.num 2), ("b", JsVal.num 1)], [("a", JsVal.num 1), ("b", JsVal.num 2)]]
        [("a", 1), ("b", 1)] =
      [[("a", JsVal.num 2), ("b", JsVal.num 1)], [("a", JsVal.num 1), ("b", JsVal.num 2)]] ∧
    applySort
        [[("a", JsVal.num 2), ("b", JsVal.num 1)], [("a", JsVal.num 1), ("b", JsVal.num 2)]]
        [("a", 1), ("b", 1)] ≠
      [[("a", JsVal.num 1), ("b", JsVal.num 2)], [("a", JsVal.num 2), ("b", JsVal.num 1)]] ∧
    alookup
        ((applySort
            [[("a", JsVal.num 2), ("b", JsVal.num 1)], [("a", JsVal.num 1), ("b", JsVal.num 2)]]
            [("a", 1), ("b", 1)]).headD []) "a" = some (JsVal.num 2) :=
  ⟨by decide, by decide, by decide⟩

/-! Claim C3. -/

/-- Claim C3 counterexample: name is flagged unique and the candidate
record carries the same non-null name value as the stored live record, yet
the insert succeeds and appends a duplicate, because the candidate also
carries the same primary key value and enforceUniqueness exempts the
collision as if the record were updating itself. -/
theorem claim_C3_counterexample :
    alookup ((alookup dbPkFix.schema "user").getD []) "name" =
      some ⟨true, false, false⟩ ∧
    (dbInsert dbPkFix "user" [[("id", JsVal.num 1), ("name", JsVal.str (strCodes "a"))]]).2 =
      .ok [[("id", JsVal.num 1), ("name", JsVal.str (strCodes "a"))]] ∧
    (alookup (dbInsert dbPkFix "user"
        [[("id", JsVal.num 1), ("name", JsVal.str (strCodes "a"))]]).1.data "user").getD [] =
      [[("id", JsVal.num 1), ("name", JsVal.str (strCodes "a"))],
       [("id", JsVal.num 1), ("name", JsVal.str (strCodes "a"))]] :=
  ⟨rfl, rfl, rfl⟩

/-- Claim C3 amended: an insert whose record matches a stored record on a
unique attribute with a defined value fails with a uniqueness violation and
leaves the state untouched, unless the primary key exemption applies; on
any failing call the data grows by exactly the successfully processed
prefix, which excludes the failing record, so earlier appends of the same
batch are never rolled back; the concrete batch shows the first two records
of a three record batch staying appended when the third collides. -/
theorem claim_C3_amended :
    (∀ (db : DB) (name : String) (sch : Schema) (A : String) (adef : AttrDef)
        (dat : List Rec) (d r : Rec) (v : JsVal),
      alookup db.schema name = some sch → (A, adef) ∈ sch → adef.unique = true →
      alookup db.data name = some dat → d ∈ dat →
      alookup r A = some v → alookup d A = some v →
      insertExempt sch r d = false →
      (dbInsert db name [r]).1 = db ∧
      ∃ es, es ≠ [] ∧ (dbInsert db name [r]).2 = .error (.uniqueness es)) ∧
    (∀ (db : DB) (name : String) (vals : List Rec) (db2 : DB) (e : InsErr),
      dbInsert db name vals = (db2, .error e) →
      ∃ added : List Rec, added.length < vals.length ∧
        (alookup db2.data name).getD [] = (alookup db.data name).getD [] ++ added) ∧
    ((dbInsert dbBatchFix "u"
        [[("name", JsVal.str (strCodes "a"))], [("name", JsVal.str (strCodes "b"))],
         [("name", JsVal.str (strCodes "b"))]]).2 =
      .error (.uniqueness [⟨"name", JsVal.str (strCodes "b")⟩]) ∧
     (alookup (dbInsert dbBatchFix "u"
        [[("name", JsVal.str (strCodes "a"))], [("name", JsVal.str (strCodes "b"))],
         [("name", JsVal.str (strCodes "b"))]]).1.data "u").getD [] =
      [[("name", JsVal.str (strCodes "a"))], [("name", JsVal.str (strCodes "b"))]]) := by
  refine ⟨?_, ?_, by decide, by decide⟩
  · intro db name sch A adef dat d r v hsch hmem hu hdat hd hv hdv hex
    have herr : (⟨A, v⟩ : UErr) ∈ enforceUniqueness db name r none := by
      unfold enforceUniqueness
      rw [hsch, hdat]
      simp only [Option.getD_some]
      rw [List.mem_flatMap]
      refine ⟨(A, adef), hmem, ?_⟩
      rw [if_pos hu]
      rw [List.mem_filterMap]
      refine ⟨d, hd, ?_⟩
      unfold collideCheck
      simp only [hv, hdv, if_pos, eq_self_iff_true, if_true]
      cases hpk : (getPrimaryKey sch).bind (alookup r) with
      | none => simp [hpk]
      | some pv =>
        unfold insertExempt at hex
        rw [hpk] at hex
        simp only [hpk]
        rw [if_neg (of_decide_eq_false hex)]
    have hne : enforceUniqueness db name r none ≠ [] := List.ne_nil_of_mem herr
    have hempty : (enforceUniqueness db name r none).isEmpty = false := by
      cases hE : enforceUniqueness db name r none with
      | nil => exact absurd hE hne
      | cons a t => rfl
    constructor
    · show (insertLoop db name [r]).1 = db
      simp only [insertLoop, hempty]
      rfl
    · refine ⟨enforceUniqueness db name r none, hne, ?_⟩
      show (insertLoop db name [r]).2 = _
      simp only [insertLoop, hempty]
      rfl
  · intro db name vals
    induction vals generalizing db with
    | nil =>
      intro db2 e h
      simp only [dbInsert, insertLoop] at h
      exact absurd (congrArg Prod.snd h) (by simp)
    | cons r rs ih =>
      intro db2 e h
      simp only [dbInsert, insertLoop] at h
      by_cases hE : (enforceUniqueness db name r none).isEmpty
      · rw [if_pos hE] at h
        split at h
        next hdat =>
          have hdb2 : db2 = (dbAutoIncrement db name r).1 :=
            (congrArg Prod.fst h).symm
          have hdata : (dbAutoIncrement db name r).1.data = db.data := rfl
          refine ⟨[], by simp, ?_⟩
          rw [hdb2, hdata]
          simp
        next dat hdat =>
          split at h
          next db3 rest hrec =>
            exact absurd (congrArg Prod.snd h) (by simp)
          next db3 e2 hrec =>
            have hdb2 : db2 = db3 := (congrArg Prod.fst h).symm
            obtain ⟨added2, hlen, hdata2⟩ := ih _ _ _ hrec
            refine ⟨(dbAutoIncrement db name r).2 :: added2, by simpa using hlen, ?_⟩
            rw [hdb2, hdata2]
            have h1 : alookup
                (aset (dbAutoIncrement db name r).1.data name
                  (dat ++ [(dbAutoIncrement db name r).2])) name =
                some (dat ++ [(dbAutoIncrement db name r).2]) :=
              alookup_aset_self _ _ _
            have h2 : alookup db.data name = some dat := hdat
            rw [h1, h2]
            simp
      · rw [if_neg hE] at h
        have hdb2 : db2 = db := (congrArg Prod.fst h).symm
        refine ⟨[], by simp, ?_⟩
        rw [hdb2]
        simp

/-- Witness for the amended C3 theorem: inserting a record with a fresh
primary key but a colliding unique name fails, leaves the state untouched,
and the failing call grows the data by a prefix shorter than the batch. -/
theorem claim_C3_amended_witness :
    ((dbInsert dbPkFix "user"
        [[("id", JsVal.num 2), ("name", JsVal.str (strCodes "a"))]]).1 = dbPkFix ∧
      ∃ es, es ≠ [] ∧
        (dbInsert dbPkFix "user"
            [[("id", JsVal.num 2), ("name", JsVal.str (strCodes "a"))]]).2 =
          .error (.uniqueness es)) ∧
    ∃ added : List Rec, added.length < 3 ∧
      (alookup (dbInsert dbBatchFix "u"
          [[("name", JsVal.str (strCodes "a"))], [("name", JsVal.str (strCodes "b"))],
           [("name", JsVal.str (strCodes "b"))]]).1.data "u").getD [] =
        (alookup dbBatchFix.data "u").getD [] ++ added := by
  constructor
  · exact claim_C3_amended.1 dbPkFix "user"
      [("id", ⟨false, false, true⟩), ("name", ⟨true, false, false⟩)] "name"
      ⟨true, false, false⟩
      [[("id", JsVal.num 1), ("name", JsVal.str (strCodes "a"))]]
      [("id", JsVal.num 1), ("name", JsVal.str (strCodes "a"))]
      [("id", JsVal.num 2), ("name", JsVal.str (strCodes "a"))]
      (JsVal.str (strCodes "a"))
      (by decide) (by decide) (by decide) (by decide) (by decide) (by decide)
      (by decide) (by decide)
  · exact claim_C3_amended.2.1 dbBatchFix "u"
      [[("name", JsVal.str (strCodes "a"))], [("name", JsVal.str (strCodes "b"))],
       [("name", JsVal.str (strCodes "b"))]]
      (dbInsert dbBatchFix "u"
        [[("name", JsVal.str (strCodes "a"))], [("name", JsVal.str (strCodes "b"))],
         [("name", JsVal.str (strCodes "b"))]]).1
      (.uniqueness [⟨"name", JsVal.str (strCodes "b")⟩])
      (by decide)

/-! Machinery for the auto-increment claims. -/

theorem insertLoop_single (db : DB) (name : String) (r : Rec) (dat : List Rec)
    (herr : (enforceUniqueness db name r none).isEmpty = true)
    (hdat : alookup (dbAutoIncrement db name r).1.data name = some dat) :
    dbInsert db name [r] =
      ({ (dbAutoIncrement db name r).1 with
          data := aset (dbAutoIncrement db name r).1.data name
            (dat ++ [(dbAutoIncrement db name r).2]) },
        .ok [(dbAutoIncrement db name r).2]) := by
  simp only [dbInsert, insertLoop, herr, if_true, hdat]

theorem enforce_single_nonunique (db : DB) (name A : String) (adef : AttrDef)
    (r : Rec) (sch : Schema)
    (hsch : alookup db.schema name = some sch)
    (hall : ∀ p ∈ sch, p.2.unique = false) :
    (enforceUniqueness db name r none).isEmpty = true := by
  unfold enforceUniqueness
  rw [hsch]
  simp only [Option.getD_some, List.isEmpty_iff]
  rw [List.flatMap_eq_nil_iff]
  intro p hp
  rw [if_neg]
  rw [hall p hp]
  simp

theorem auto_omitted (db : DB) (name A : String) (adef : AttrDef)
    (ctr : List (String × ℚ))
    (hai : adef.autoIncrement = true)
    (hsch : alookup db.schema name = some [(A, adef)])
    (hctr : alookup db.counters name = some ctr) :
    dbAutoIncrement db name [] =
      ({ db with
          counters := aset db.counters name (aset ctr A ((alookup ctr A).getD 0 + 1)) },
        [(A, JsVal.num ((alookup ctr A).getD 0 + 1))]) := by
  unfold dbAutoIncrement
  rw [hsch, hctr]
  simp only [Option.getD_some, List.foldl_cons, List.foldl_nil, hai, if_true]
  unfold aiStep
  simp [alookup, aset]

theorem insert_omitted_ai_step (db : DB) (name A : String) (adef : AttrDef)
    (dat : List Rec) (ctr : List (String × ℚ))
    (hai : adef.autoIncrement = true) (hu : adef.unique = false)
    (hsch : alookup db.schema name = some [(A, adef)])
    (hdat : alookup db.data name = some dat)
    (hctr : alookup db.counters name = some ctr) :
    dbInsert db name [[]] =
      ({ data := aset db.data name
            (dat ++ [[(A, JsVal.num ((alookup ctr A).getD 0 + 1))]])
         schema := db.schema
         counters := aset db.counters name
            (aset ctr A ((alookup ctr A).getD 0 + 1)) },
        .ok [[(A, JsVal.num ((alookup ctr A).getD 0 + 1))]]) := by
  have herr : (enforceUniqueness db name [] none).isEmpty = true := by
    apply enforce_single_nonunique db name A adef _ _ hsch
    intro p hp
    rcases List.mem_singleton.mp hp with rfl
    exact hu
  have hauto := auto_omitted db name A adef ctr hai hsch hctr
  have hdat2 : alookup (dbAutoIncrement db name []).1.data name = some dat := by
    rw [hauto]
    exact hdat
  have h := insertLoop_single db name [] dat herr hdat2
  rw [hauto] at h
  exact h

theorem insertEmptyN_spec (db : DB) (name A : String) (adef : AttrDef)
    (dat : List Rec) (ctr : List (String × ℚ))
    (hai : adef.autoIncrement = true) (hu : adef.unique = false)
    (hsch : alookup db.schema name = some [(A, adef)])
    (hdat : alookup db.data name = some dat)
    (hctr : alookup db.counters name = some ctr) :
    ∀ n : Nat,
      alookup (insertEmptyN db name n).schema name = some [(A, adef)] ∧
      alookup (insertEmptyN db name n).data name =
        some (dat ++ (List.range n).map
          (fun i : Nat => [(A, JsVal.num ((alookup ctr A).getD 0 + (i : ℚ) + 1))])) ∧
      ∃ ctrn, alookup (insertEmptyN db name n).counters name = some ctrn ∧
        (alookup ctrn A).getD 0 = (alookup ctr A).getD 0 + (n : ℚ) := by
  intro n
  induction n with
  | zero =>
    refine ⟨hsch, by simpa using hdat, ctr, hctr, by push_cast; ring⟩
  | succ n ihn =>
    obtain ⟨hs, hdn, ctrn, hcn, hval⟩ := ihn
    have hstep := insert_omitted_ai_step (insertEmptyN db name n) name A adef _ _
      hai hu hs hdn hcn
    have hN : insertEmptyN db name (n + 1) =
        (dbInsert (insertEmptyN db name n) name [[]]).1 := rfl
    rw [hN, hstep]
    refine ⟨hs, ?_, ?_⟩
    · show alookup (aset (insertEmptyN db name n).data name _) name = _
      rw [alookup_aset_self, hval, List.range_succ, List.map_append, List.append_assoc]
      simp only [List.map_cons, List.map_nil]
    · refine ⟨aset ctrn A ((alookup ctrn A).getD 0 + 1), ?_, ?_⟩
      · show alookup (aset (insertEmptyN db name n).counters name _) name = _
        rw [alookup_aset_self]
      · rw [alookup_aset_self]
        simp only [Option.getD_some]
        rw [hval]
        push_cast
        ring

theorem aiStep_supplied (ctr : List (String × ℚ)) (A : String) (v : ℚ) (hv : v ≠ 0) :
    aiStep [(A, JsVal.num v)] ctr A =
      ([(A, JsVal.num v)],
        if (((alookup ctr A).getD 0 : ℚ) == 0) ||
            decide ((alookup ctr A).getD 0 < v)
        then aset ctr A v else ctr) := by
  unfold aiStep
  have hl : alookup [(A, JsVal.num v)] A = some (JsVal.num v) := by simp [alookup]
  rw [hl]
  simp [jsTruthy, hv, jsToNumber]

theorem aiStep_zero (ctr : List (String × ℚ)) (A : String) :
    aiStep [(A, JsVal.num 0)] ctr A =
      ([(A, JsVal.num ((alookup ctr A).getD 0 + 1))],
        aset ctr A ((alookup ctr A).getD 0 + 1)) := by
  unfold aiStep
  have hl : alookup [(A, JsVal.num 0)] A = some (JsVal.num 0) := by simp [alookup]
  rw [hl]
  simp [jsTruthy, aset, alookup]

/-! Claim C5. -/

/-- Claim C5 counterexample: inserting a record that explicitly supplies 0
for the auto-increment attribute into a fresh collection does not leave the
record untouched and does not set the counter to max(0, 0) = 0: the falsy
supplied value is treated as omitted, the stored record carries 1 and the
counter becomes 1. -/
theorem claim_C5_counterexample :
    (dbInsert dbAiFix "c" [[("A", JsVal.num 0)]]).2 = .ok [[("A", JsVal.num 1)]] ∧
    (alookup (dbInsert dbAiFix "c" [[("A", JsVal.num 0)]]).1.data "c").getD [] =
      [[("A", JsVal.num 1)]] ∧
    JsVal.num 1 ≠ JsVal.num 0 ∧
    alookup ((alookup (dbInsert dbAiFix "c"
        [[("A", JsVal.num 0)]]).1.counters "c").getD []) "A" = some 1 ∧
    max (0 : ℚ) 0 ≠ (1 : ℚ) := by
  refine ⟨?_, ?_, by decide, ?_, by norm_num⟩
  · norm_num [dbInsert, insertLoop, enforceUniqueness, dbAutoIncrement, aiStep, alookup,
      aset, jsTruthy, jsToNumber, dbAiFix, getPrimaryKey, collideCheck]
  · norm_num [dbInsert, insertLoop, enforceUniqueness, dbAutoIncrement, aiStep, alookup,
      aset, jsTruthy, jsToNumber, dbAiFix, getPrimaryKey, collideCheck]
  · norm_num [dbInsert, insertLoop, enforceUniqueness, dbAutoIncrement, aiStep, alookup,
      aset, jsTruthy, jsToNumber, dbAiFix, getPrimaryKey, collideCheck]

/-- Claim C5 amended: from counter value c, a sequence of n inserts
omitting the auto-increment attribute stores the strictly increasing values
c+1 .. c+n (1 .. n from a fresh counter); an insert supplying a positive
value leaves the record untouched and raises the counter to the maximum of
counter and supplied value; an insert supplying the falsy value 0 is
treated as if the attribute were omitted: the record receives c+1 and the
counter increments. -/
theorem claim_C5_amended :
    (∀ (db : DB) (name A : String) (adef : AttrDef) (dat : List Rec)
        (ctr : List (String × ℚ)),
      adef.autoIncrement = true → adef.unique = false →
      alookup db.schema name = some [(A, adef)] →
      alookup db.data name = some dat →
      alookup db.counters name = some ctr →
      ∀ n : Nat,
        alookup (insertEmptyN db name n).data name =
          some (dat ++ (List.range n).map
            (fun i : Nat => [(A, JsVal.num ((alookup ctr A).getD 0 + (i : ℚ) + 1))]))) ∧
    (∀ (db : DB) (name A : String) (adef : AttrDef) (dat : List Rec)
        (ctr : List (String × ℚ)) (v : ℚ),
      0 < v →
      adef.autoIncrement = true → adef.unique = false →
      alookup db.schema name = some [(A, adef)] →
      alookup db.data name = some dat →
      alookup db.counters name = some ctr →
      (dbInsert db name [[(A, JsVal.num v)]]).2 = .ok [[(A, JsVal.num v)]] ∧
      (alookup ((alookup (dbInsert db name
          [[(A, JsVal.num v)]]).1.counters name).getD []) A).getD 0 =
        max ((alookup ctr A).getD 0) v) ∧
    (∀ (db : DB) (name A : String) (adef : AttrDef) (dat : List Rec)
        (ctr : List (String × ℚ)),
      adef.autoIncrement = true → adef.unique = false →
      alookup db.schema name = some [(A, adef)] →
      alookup db.data name = some dat →
      alookup db.counters name = some ctr →
      (dbInsert db name [[(A, JsVal.num 0)]]).2 =
        .ok [[(A, JsVal.num ((alookup ctr A).getD 0 + 1))]]) := by
  refine ⟨?_, ?_, ?_⟩
  · intro db name A adef dat ctr hai hu hsch hdat hctr n
    exact (insertEmptyN_spec db name A adef dat ctr hai hu hsch hdat hctr n).2.1
  · intro db name A adef dat ctr v hv hai hu hsch hdat hctr
    have herr : (enforceUniqueness db name [(A, JsVal.num v)] none).isEmpty = true := by
      apply enforce_single_nonunique db name A adef _ _ hsch
      intro p hp
      rcases List.mem_singleton.mp hp with rfl
      exact hu
    have hauto : dbAutoIncrement db name [(A, JsVal.num v)] =
        ({ db with
            counters := aset db.counters name
              (if (((alookup ctr A).getD 0 : ℚ) == 0) || decide ((alookup ctr A).getD 0 < v) then aset ctr A v else ctr) },
          [(A, JsVal.num v)]) := by
      unfold dbAutoIncrement
      rw [hsch, hctr]
      simp only [Option.getD_some, List.foldl_cons, List.foldl_nil, hai, if_true]
      rw [aiStep_supplied ctr A v (ne_of_gt hv)]
    have hdat2 : alookup (dbAutoIncrement db name [(A, JsVal.num v)]).1.data name =
        some dat := by rw [hauto]; exact hdat
    have h := insertLoop_single db name [(A, JsVal.num v)] dat herr hdat2
    rw [hauto] at h
    constructor
    · rw [show (dbInsert db name [[(A, JsVal.num v)]]).2 =
        ((dbInsert db name [[(A, JsVal.num v)]])).2 from rfl]
      rw [h]
    · rw [h]
      show (alookup ((alookup (aset db.counters name _) name).getD []) A).getD 0 = _
      rw [alookup_aset_self]
      simp only [Option.getD_some]
      by_cases hc0 : ((alookup ctr A).getD 0 : ℚ) = 0
      · rw [if_pos (by simp [hc0])]
        rw [alookup_aset_self]
        simp only [Option.getD_some]
        rw [hc0]
        exact (max_eq_right (le_of_lt hv)).symm
      · by_cases hlt : (alookup ctr A).getD 0 < v
        · rw [if_pos (by simp [hlt])]
          rw [alookup_aset_self]
          simp only [Option.getD_some]
          exact (max_eq_right (le_of_lt hlt)).symm
        · rw [if_neg (by simp [hc0, hlt])]
          exact (max_eq_left (le_of_not_lt hlt)).symm
  · intro db name A adef dat ctr hai hu hsch hdat hctr
    have herr : (enforceUniqueness db name [(A, JsVal.num 0)] none).isEmpty = true := by
      apply enforce_single_nonunique db name A adef _ _ hsch
      intro p hp
      rcases List.mem_singleton.mp hp with rfl
      exact hu
    have hauto : dbAutoIncrement db name [(A, JsVal.num 0)] =
        ({ db with
            counters := aset db.counters name (aset ctr A ((alookup ctr A).getD 0 + 1)) },
          [(A, JsVal.num ((alookup ctr A).getD 0 + 1))]) := by
      unfold dbAutoIncrement
      rw [hsch, hctr]
      simp only [Option.getD_some, List.foldl_cons, List.foldl_nil, hai, if_true]
      rw [aiStep_zero]
    have hdat2 : alookup (dbAutoIncrement db name [(A, JsVal.num 0)]).1.data name =
        some dat := by rw [hauto]; exact hdat
    have h := insertLoop_single db name [(A, JsVal.num 0)] dat herr hdat2
    rw [hauto] at h
    rw [show (dbInsert db name [[(A, JsVal.num 0)]]).2 =
      ((dbInsert db name [[(A, JsVal.num 0)]])).2 from rfl]
    rw [h]

/-- Witness for the amended C5 theorem: two omitted-value inserts into a
fresh collection store 1 then 2; supplying 7 with the counter at 5 leaves
the record untouched and raises the counter to 7, the maximum. -/
theorem claim_C5_amended_witness :
    (alookup (insertEmptyN dbAiFix "c" 2).data "c").getD [] =
      [[("A", JsVal.num 1)], [("A", JsVal.num 2)]] ∧
    (dbInsert dbCtrFix "c" [[("A", JsVal.num 7)]]).2 = .ok [[("A", JsVal.num 7)]] ∧
    (alookup ((alookup (dbInsert dbCtrFix "c"
        [[("A", JsVal.num 7)]]).1.counters "c").getD []) "A").getD 0 = 7 := by
  refine ⟨?_, ?_, ?_⟩
  · have h := claim_C5_amended.1 dbAiFix "c" "A" ⟨false, true, false⟩ [] []
      rfl rfl rfl rfl rfl 2
    rw [h]
    norm_num [List.range_succ, alookup]
  · exact (claim_C5_amended.2.1 dbCtrFix "c" "A" ⟨false, true, false⟩ [] [("A", 5)] 7
      (by norm_num) rfl rfl rfl rfl rfl).1
  · have h := (claim_C5_amended.2.1 dbCtrFix "c" "A" ⟨false, true, false⟩ [] [("A", 5)] 7
      (by norm_num) rfl rfl rfl rfl rfl).2
    rw [h]
    norm_num [alookup]

/-! Claim C10. -/

theorem dropFold_counters : ∀ (rels : List String) (acc : DB),
    (rels.foldl (fun acc rel =>
      { data := adelete acc.data rel, schema := adelete acc.schema rel,
        counters := acc.counters }) acc).counters = acc.counters := by
  intro rels
  induction rels with
  | nil => intro acc; rfl
  | cons rel t ih => intro acc; exact ih _

theorem dropFold_data_none : ∀ (rels : List String) (acc : DB) (name : String),
    alookup acc.data name = none →
    alookup ((rels.foldl (fun acc rel =>
      { data := adelete acc.data rel, schema := adelete acc.schema rel,
        counters := acc.counters }) acc)).data name = none := by
  intro rels
  induction rels with
  | nil => intro acc name h; exact h
  | cons rel t ih =>
    intro acc name h
    exact ih _ name (alookup_none_adelete h rel)

theorem dropFold_schema_none : ∀ (rels : List String) (acc : DB) (name : String),
    alookup acc.schema name = none →
    alookup ((rels.foldl (fun acc rel =>
      { data := adelete acc.data rel, schema := adelete acc.schema rel,
        counters := acc.counters }) acc)).schema name = none := by
  intro rels
  induction rels with
  | nil => intro acc name h; exact h
  | cons rel t ih =>
    intro acc name h
    exact ih _ name (alookup_none_adelete h rel)

/-- Claim C10: dropCollection removes the records and the schema of the
named collection, for the name and all listed relations, but never touches
the counters map; re-defining the same name re-uses the surviving counters,
so the next omitted-value insert continues at counter plus one instead of
restarting at one. -/
theorem claim_C10_counters_survive :
    (∀ (db : DB) (name : String) (rels : List String),
      (dropCollection db name rels).counters = db.counters) ∧
    (∀ (db : DB) (name : String) (rels : List String),
      alookup (dropCollection db name rels).data name = none ∧
      alookup (dropCollection db name rels).schema name = none) ∧
    (∀ (db : DB) (name A : String) (rels : List String) (adef : AttrDef)
        (ctr : List (String × ℚ)),
      adef.autoIncrement = true → adef.unique = false →
      alookup db.counters name = some ctr →
      (dbInsert (setCollection (dropCollection db name rels) name
          ⟨some [(A, adef)]⟩) name [[]]).2 =
        .ok [[(A, JsVal.num ((alookup ctr A).getD 0 + 1))]]) := by
  refine ⟨?_, ?_, ?_⟩
  · intro db name rels
    unfold dropCollection
    exact dropFold_counters rels _
  · intro db name rels
    unfold dropCollection
    constructor
    · exact dropFold_data_none rels _ name (alookup_adelete_self _ _)
    · exact dropFold_schema_none rels _ name (alookup_adelete_self _ _)
  · intro db name A rels adef ctr hai hu hctr
    have hdnone : alookup (dropCollection db name rels).data name = none := by
      unfold dropCollection
      exact dropFold_data_none rels _ name (alookup_adelete_self _ _)
    have hcsame : (dropCollection db name rels).counters = db.counters := by
      unfold dropCollection
      exact dropFold_counters rels _
    have h1 : alookup (setCollection (dropCollection db name rels) name
        ⟨some [(A, adef)]⟩).schema name = some [(A, adef)] := by
      show alookup (aset (dropCollection db name rels).schema name _) name = _
      rw [alookup_aset_self]
      rfl
    have h2 : alookup (setCollection (dropCollection db name rels) name
        ⟨some [(A, adef)]⟩).data name = some [] := by
      show alookup (aset (dropCollection db name rels).data name
        ((alookup (dropCollection db name rels).data name).getD [])) name = _
      rw [alookup_aset_self, hdnone]
      rfl
    have h3 : alookup (setCollection (dropCollection db name rels) name
        ⟨some [(A, adef)]⟩).counters name = some ctr := by
      show alookup (aset (dropCollection db name rels).counters name
        ((alookup (dropCollection db name rels).counters name).getD [])) name = _
      rw [alookup_aset_self, hcsame, hctr]
      rfl
    have hstep := insert_omitted_ai_step _ name A adef [] ctr hai hu h1 h2 h3
    rw [congrArg Prod.snd hstep]

/-! Machinery for the sort ordering claim. -/

theorem mem_insertSorted {α : Type} (lt : α → α → Bool) (x : α) :
    ∀ (l : List α) (y : α), y ∈ insertSorted lt x l ↔ y = x ∨ y ∈ l := by
  intro l
  induction l with
  | nil => intro y; simp [insertSorted]
  | cons h t ih =>
    intro y
    unfold insertSorted
    by_cases hlt : lt x h
    · rw [if_pos hlt]
      exact List.mem_cons
    · rw [if_neg hlt]
      simp only [List.mem_cons, ih]
      tauto

theorem pairwise_insertSorted {α : Type} (lt : α → α → Bool) (x : α) :
    ∀ (l : List α),
      (∀ a ∈ x :: l, ∀ b ∈ x :: l, lt a b = true → lt b a = false) →
      (∀ a ∈ x :: l, ∀ b ∈ x :: l, ∀ c ∈ x :: l,
        lt a b = true → lt b c = true → lt a c = true) →
      l.Pairwise (fun a b => lt b a = false) →
      (insertSorted lt x l).Pairwise (fun a b => lt b a = false) := by
  intro l
  induction l with
  | nil =>
    intro _ _ _
    simp [insertSorted]
  | cons h t ih =>
    intro hasym htrans hpw
    rw [List.pairwise_cons] at hpw
    obtain ⟨hh, hpt⟩ := hpw
    unfold insertSorted
    by_cases hlt : lt x h
    · rw [if_pos hlt]
      rw [List.pairwise_cons]
      constructor
      · intro y hy
        rcases List.mem_cons.mp hy with rfl | hyt
        · exact hasym x (List.mem_cons_self _ _) y
            (List.mem_cons_of_mem _ (List.mem_cons_self _ _)) hlt
        · by_contra hc
          have hyx : lt y x = true := by
            cases hxy : lt y x
            · exact absurd hxy hc
            · rfl
          have hyh : lt y h = true :=
            htrans y (List.mem_cons_of_mem _ (List.mem_cons_of_mem _ hyt)) x
              (List.mem_cons_self _ _)
              h (List.mem_cons_of_mem _ (List.mem_cons_self _ _)) hyx hlt
          rw [hh y hyt] at hyh
          exact Bool.false_ne_true hyh
      · exact List.Pairwise.cons hh hpt
    · rw [if_neg hlt]
      rw [List.pairwise_cons]
      have emb : ∀ a, a ∈ x :: t → a ∈ x :: h :: t := by
        intro a ha
        rcases List.mem_cons.mp ha with rfl | hat
        · exact List.mem_cons_self _ _
        · exact List.mem_cons_of_mem _ (List.mem_cons_of_mem _ hat)
      constructor
      · intro y hy
        rcases (mem_insertSorted lt x t y).mp hy with rfl | hyt
        · exact Bool.eq_false_iff.mpr hlt
        · exact hh y hyt
      · exact ih (fun a ha b hb => hasym a (emb a ha) b (emb b hb))
          (fun a ha b hb c hc => htrans a (emb a ha) b (emb b hb) c (emb c hc)) hpt

theorem pairwise_sortFold {α : Type} (lt : α → α → Bool) (S : List α)
    (hasym : ∀ a ∈ S, ∀ b ∈ S, lt a b = true → lt b a = false)
    (htrans : ∀ a ∈ S, ∀ b ∈ S, ∀ c ∈ S,
      lt a b = true → lt b c = true → lt a c = true) :
    ∀ (l acc : List α), (∀ a ∈ l, a ∈ S) → (∀ a ∈ acc, a ∈ S) →
      acc.Pairwise (fun a b => lt b a = false) →
      ((l.foldl (fun acc x => insertSorted lt x acc) acc).Pairwise
        (fun a b => lt b a = false) ∧
       ∀ a ∈ l.foldl (fun acc x => insertSorted lt x acc) acc, a ∈ S) := by
  intro l
  induction l with
  | nil =>
    intro acc _ hacc hpw
    exact ⟨hpw, hacc⟩
  | cons x t ih =>
    intro acc hl hacc hpw
    rw [List.foldl_cons]
    have embS : ∀ a, a ∈ x :: acc → a ∈ S := by
      intro a ha
      rcases List.mem_cons.mp ha with rfl | h2
      · exact hl a (List.mem_cons_self _ _)
      · exact hacc a h2
    apply ih
    · intro a ha
      exact hl a (List.mem_cons_of_mem _ ha)
    · intro a ha
      rcases (mem_insertSorted lt x acc a).mp ha with rfl | h2
      · exact hl a (List.mem_cons_self _ _)
      · exact hacc a h2
    · exact pairwise_insertSorted lt x acc
        (fun a ha b hb => hasym a (embS a ha) b (embS b hb))
        (fun a ha b hb c hc => htrans a (embS a ha) b (embS b hb) c (embS c hc)) hpw

theorem mem_sortFold {α : Type} (lt : α → α → Bool) :
    ∀ (l acc : List α) (y : α),
      y ∈ l.foldl (fun acc x => insertSorted lt x acc) acc ↔ y ∈ l ∨ y ∈ acc := by
  intro l
  induction l with
  | nil => intro acc y; simp
  | cons x t ih =>
    intro acc y
    rw [List.foldl_cons, ih, mem_insertSorted]
    simp only [List.mem_cons]
    tauto

theorem mem_applySort : ∀ (ds : List (String × Int)) (data : List Rec) (y : Rec),
    y ∈ applySort data ds ↔ y ∈ data := by
  intro ds
  induction ds with
  | nil => intro data y; exact Iff.rfl
  | cons d t ih =>
    intro data y
    show y ∈ (d :: t).foldl _ data ↔ _
    rw [List.foldl_cons]
    rw [show (t.foldl _ _ : List Rec) = applySort
      (if d.2 = -1 then (sortByLt (fun r r2 => jsLtOptB (alookup r d.1) (alookup r2 d.1)) data).reverse
       else sortByLt (fun r r2 => jsLtOptB (alookup r d.1) (alookup r2 d.1)) data) t from rfl]
    rw [ih]
    by_cases hd : d.2 = -1
    · rw [if_pos hd, List.mem_reverse]
      show y ∈ data.foldl _ [] ↔ _
      rw [mem_sortFold]
      simp
    · rw [if_neg hd]
      show y ∈ data.foldl _ [] ↔ _
      rw [mem_sortFold]
      simp

theorem jsLtOptB_num (a b : ℚ) :
    jsLtOptB (some (.num a)) (some (.num b)) = decide (a < b) := rfl

/-- Claim C1 amended: each directive performs a stable full re-sort, so the
last listed directive dominates: appending an ascending directive on an
attribute whose values are all numeric leaves the result sorted by that
attribute no matter what was sorted before; the concrete example of the
claim nevertheless holds because its records tie on the first attribute. -/
theorem claim_C1_amended :
    (applySort
        [[("a", JsVal.num 1), ("b", JsVal.num 2)], [("a", JsVal.num 1), ("b", JsVal.num 1)]]
        [("a", 1), ("b", 1)] =
      [[("a", JsVal.num 1), ("b", JsVal.num 1)], [("a", JsVal.num 1), ("b", JsVal.num 2)]]) ∧
    (∀ (data : List Rec) (ds : List (String × Int)) (k : String),
      (∀ r ∈ data, ∃ q : ℚ, alookup r k = some (.num q)) →
      (applySort data (ds ++ [(k, 1)])).Pairwise
        (fun r r2 => jsLtOptB (alookup r2 k) (alookup r k) = false)) := by
  constructor
  · decide
  · intro data ds k hnum
    have hsplit : applySort data (ds ++ [(k, 1)]) =
        sortByLt (fun r r2 => jsLtOptB (alookup r k) (alookup r2 k))
          (applySort data ds) := by
      show (ds ++ [(k, 1)]).foldl _ data = _
      rw [List.foldl_append, List.foldl_cons, List.foldl_nil]
      show (if (1 : Int) = -1 then _ else _) = _
      rw [if_neg (by decide)]
      rfl
    rw [hsplit]
    have hbase : ∀ a ∈ applySort data ds, a ∈ data := by
      intro a ha
      exact (mem_applySort ds data a).mp ha
    have hasym : ∀ a ∈ data, ∀ b ∈ data,
        (jsLtOptB (alookup a k) (alookup b k)) = true →
        (jsLtOptB (alookup b k) (alookup a k)) = false := by
      intro a ha b hb hab
      obtain ⟨qa, hqa⟩ := hnum a ha
      obtain ⟨qb, hqb⟩ := hnum b hb
      rw [hqa, hqb, jsLtOptB_num] at hab
      rw [hqb, hqa, jsLtOptB_num]
      rw [decide_eq_true_eq] at hab
      exact decide_eq_false (not_lt.mpr hab.le)
    have htrans : ∀ a ∈ data, ∀ b ∈ data, ∀ c ∈ data,
        (jsLtOptB (alookup a k) (alookup b k)) = true →
        (jsLtOptB (alookup b k) (alookup c k)) = true →
        (jsLtOptB (alookup a k) (alookup c k)) = true := by
      intro a ha b hb c hc hab hbc
      obtain ⟨qa, hqa⟩ := hnum a ha
      obtain ⟨qb, hqb⟩ := hnum b hb
      obtain ⟨qc, hqc⟩ := hnum c hc
      rw [hqa, hqb, jsLtOptB_num] at hab
      rw [hqb, hqc, jsLtOptB_num] at hbc
      rw [hqa, hqc, jsLtOptB_num]
      rw [decide_eq_true_eq] at hab hbc
      exact decide_eq_true (hab.trans hbc)
    exact (pairwise_sortFold _ data hasym htrans (applySort data ds) [] hbase
      (by simp) List.Pairwise.nil).1

/-- Witness for the amended C1 theorem: the last-key sortedness conclusion
at a concrete two-record list with numeric values of the last attribute. -/
theorem claim_C1_amended_witness :
    (applySort
        [[("a", JsVal.num 2), ("b", JsVal.num 1)], [("a", JsVal.num 1), ("b", JsVal.num 2)]]
        ([("a", 1)] ++ [("b", 1)])).Pairwise
      (fun r r2 => jsLtOptB (alookup r2 "b") (alookup r "b") = false) := by
  apply claim_C1_amended.2 _ [("a", 1)] "b"
  intro r hr
  rcases List.mem_cons.mp hr with rfl | hr2
  · exact ⟨1, rfl⟩
  rcases List.mem_cons.mp hr2 with rfl | hr3
  · exact ⟨2, rfl⟩
  · cases hr3

/-! Machinery for the mutation targeting claim. -/

theorem mem_enumFrom_iff {α : Type} : ∀ (l : List α) (n i : Nat) (a : α),
    (i, a) ∈ List.enumFrom n l ↔ ∃ j, i = n + j ∧ l.get? j = some a := by
  intro l
  induction l with
  | nil => intro n i a; simp
  | cons b t ih =>
    intro n i a
    rw [List.enumFrom_cons]
    simp only [List.mem_cons, Prod.mk.injEq]
    constructor
    · rintro (⟨rfl, rfl⟩ | h)
      · exact ⟨0, by omega, rfl⟩
      · obtain ⟨j, rfl, hj⟩ := (ih (n + 1) i a).mp h
        exact ⟨j + 1, by omega, hj⟩
    · rintro ⟨j, rfl, hj⟩
      cases j with
      | zero =>
        left
        refine ⟨by omega, ?_⟩
        injection hj with h2
        exact h2.symm
      | succ j =>
        right
        exact (ih (n + 1) (n + (j + 1)) a).mpr ⟨j, by omega, hj⟩

theorem mem_matchIdx_iff (data : List Rec) (f : Rec → Bool) (i : Nat) :
    i ∈ (data.enum.filter (fun p => f p.2)).map Prod.fst ↔
      ∃ a, data.get? i = some a ∧ f a = true := by
  rw [List.mem_map]
  constructor
  · rintro ⟨⟨i2, a⟩, hp, rfl⟩
    rw [List.mem_filter] at hp
    obtain ⟨hpe, hpf⟩ := hp
    obtain ⟨j, hij, hget⟩ := (mem_enumFrom_iff data 0 i2 a).mp hpe
    exact ⟨a, by rw [show i2 = j by omega]; exact hget, hpf⟩
  · rintro ⟨a, hget, hf⟩
    refine ⟨(i, a), ?_, rfl⟩
    rw [List.mem_filter]
    exact ⟨(mem_enumFrom_iff data 0 i a).mpr ⟨i, by omega, hget⟩, hf⟩

theorem filterMap_mem_eq_map {α β : Type} (l : List α) (g : α → Option β) (h : α → β)
    (hg : ∀ x ∈ l, g x = some (h x)) : l.filterMap g = l.map h := by
  induction l with
  | nil => rfl
  | cons a t ih =>
    simp only [List.filterMap_cons, hg a (List.mem_cons_self a t), List.map_cons]
    rw [ih (fun x hx => hg x (List.mem_cons_of_mem a hx))]

theorem enumFrom_filter_map_snd {α : Type} (f : α → Bool) :
    ∀ (l : List α) (n : Nat),
    ((List.enumFrom n l).filter (fun p => f p.2)).map Prod.snd = l.filter f := by
  intro l
  induction l with
  | nil => intro n; rfl
  | cons a t ih =>
    intro n
    rw [List.enumFrom_cons, List.filter_cons, List.filter_cons]
    by_cases hf : f a
    · simp only [hf, if_true, List.map_cons]
      rw [ih]
    · simp only [hf, if_false, Bool.false_eq_true]
      exact ih _

theorem getMatchIndices_where (data : List Rec) (w : Option WhereC) :
    getMatchIndices data { whereC := w } =
      (data.enum.filter (fun p => matchSetO p.2 w)).map Prod.fst := by
  unfold getMatchIndices applySortIdx applySkip applyLimit
  simp

theorem update_map_eq (data : List Rec) (f : Rec → Bool) (E : Rec → Rec) :
    (data.enum.map (fun p =>
      if p.1 ∈ (data.enum.filter (fun p => f p.2)).map Prod.fst then E p.2 else p.2)) =
      data.map (fun r => if f r then E r else r) := by
  have hcong : ∀ p ∈ data.enum,
      (if p.1 ∈ (data.enum.filter (fun p => f p.2)).map Prod.fst then E p.2 else p.2) =
        (if f p.2 then E p.2 else p.2) := by
    rintro ⟨i, a⟩ hp
    obtain ⟨j, hij, hget⟩ := (mem_enumFrom_iff data 0 i a).mp hp
    have hia : data.get? i = some a := by rw [show i = j by omega]; exact hget
    by_cases hf : f a
    · rw [if_pos ((mem_matchIdx_iff data f i).mpr ⟨a, hia, hf⟩), if_pos hf]
    · rw [if_neg, if_neg hf]
      intro hmem
      obtain ⟨a2, hget2, hf2⟩ := (mem_matchIdx_iff data f i).mp hmem
      rw [hia] at hget2
      injection hget2 with h2
      exact hf (h2 ▸ hf2)
  rw [List.map_congr_left hcong]
  have hsnd : data.enum.map (fun p => if f p.2 then E p.2 else p.2) =
      (data.enum.map Prod.snd).map (fun r => if f r then E r else r) := by
    rw [List.map_map]
    rfl
  rw [hsnd, List.enum_map_snd]

theorem update_results_eq (data : List Rec) (f : Rec → Bool) (E : Rec → Rec) :
    ((data.enum.filter (fun p => f p.2)).map Prod.fst).filterMap
        (fun i => (data.get? i).map E) =
      (data.filter f).map E := by
  rw [List.filterMap_map]
  have hmem : ∀ p ∈ data.enum.filter (fun p => f p.2),
      ((fun i => (data.get? i).map E) ∘ Prod.fst) p = some (E p.2) := by
    rintro ⟨i, a⟩ hp
    rw [List.mem_filter] at hp
    obtain ⟨j, hij, hget⟩ := (mem_enumFrom_iff data 0 i a).mp hp.1
    simp only [Function.comp]
    rw [show i = j by omega, hget]
    rfl
  rw [filterMap_mem_eq_map _ _ _ hmem]
  have h2 : (data.enum.filter (fun p => f p.2)).map
        ((fun p : Nat × Rec => E p.2)) =
      ((data.enum.filter (fun p => f p.2)).map Prod.snd).map E := by
    rw [List.map_map]
    rfl
  rw [h2, show data.enum = List.enumFrom 0 data from rfl, enumFrom_filter_map_snd]

theorem destroy_filter_eq (data : List Rec) (f : Rec → Bool) :
    (data.enum.filter (fun p =>
      decide (p.1 ∉ (data.enum.filter (fun p => f p.2)).map Prod.fst))).map Prod.snd =
      data.filter (fun r => !f r) := by
  have hcong : ∀ p ∈ data.enum,
      decide (p.1 ∉ (data.enum.filter (fun p => f p.2)).map Prod.fst) = !f p.2 := by
    rintro ⟨i, a⟩ hp
    obtain ⟨j, hij, hget⟩ := (mem_enumFrom_iff data 0 i a).mp hp
    have hia : data.get? i = some a := by rw [show i = j by omega]; exact hget
    by_cases hf : f a
    · rw [hf]
      simp only [Bool.not_true, decide_eq_false_iff_not, Classical.not_not]
      exact (mem_matchIdx_iff data f i).mpr ⟨a, hia, hf⟩
    · rw [show f a = false from by simpa using hf]
      simp only [Bool.not_false, decide_eq_true_eq]
      intro hmem
      obtain ⟨a2, hget2, hf2⟩ := (mem_matchIdx_iff data f i).mp hmem
      rw [hia] at hget2
      injection hget2 with h2
      exact hf (h2 ▸ hf2)
  rw [List.filter_congr hcong]
  exact enumFrom_filter_map_snd (fun r => !f r) data 0

/-- Claim C2 amended: update and destroy target exactly the positions that
getMatchIndices reports, and getMatchIndices runs the full criteria
pipeline, so pagination facets change the targets; with criteria carrying
only a where facet, update shallow-merges the partial values into exactly
the records satisfying the predicate, in place, and destroy removes exactly
those records while preserving the order of the rest. -/
theorem claim_C2_amended :
    (∀ (data : List Rec) (w : Option WhereC) (values : Rec),
      (adapterUpdate data { whereC := w } values).1 =
        data.map (fun r => if matchSetO r w then recExtend r values else r)) ∧
    (∀ (data : List Rec) (w : Option WhereC) (values : Rec),
      (adapterUpdate data { whereC := w } values).2 =
        (data.filter (fun r => matchSetO r w)).map (fun r => recExtend r values)) ∧
    (∀ (data : List Rec) (w : Option WhereC),
      adapterDestroy data { whereC := w } =
        data.filter (fun r => !matchSetO r w)) := by
  refine ⟨?_, ?_, ?_⟩
  · intro data w values
    show data.enum.map (fun p =>
        if p.1 ∈ getMatchIndices data { whereC := w } then recExtend p.2 values
        else p.2) = _
    rw [getMatchIndices_where]
    exact update_map_eq data (fun r => matchSetO r w) (fun r => recExtend r values)
  · intro data w values
    show (getMatchIndices data { whereC := w }).filterMap
        (fun i => (data.get? i).map (fun r => recExtend r values)) = _
    rw [getMatchIndices_where]
    exact update_results_eq data (fun r => matchSetO r w) (fun r => recExtend r values)
  · intro data w
    show (data.enum.filter (fun p =>
        decide (p.1 ∉ getMatchIndices data { whereC := w }))).map Prod.snd = _
    rw [show (fun p : Nat × Rec =>
        decide (p.1 ∉ getMatchIndices data { whereC := w })) =
      (fun p : Nat × Rec =>
        decide (p.1 ∉ (data.enum.filter
          (fun p => matchSetO p.2 w)).map Prod.fst)) from by
        funext p
        rw [getMatchIndices_where]]
    exact destroy_filter_eq data (fun r => matchSetO r w)

/-- Witness for the C10 theorem: with the counter standing at five, drop
plus redefine plus an omitted-value insert stores six, not one. -/
theorem claim_C10_witness :
    (dropCollection dbCtrFix "c" []).counters = dbCtrFix.counters ∧
    (dbInsert (setCollection (dropCollection dbCtrFix "c" []) "c"
        ⟨some [("A", ⟨false, true, false⟩)]⟩) "c" [[]]).2 =
      .ok [[("A", JsVal.num 6)]] := by
  constructor
  · exact claim_C10_counters_survive.1 dbCtrFix "c" []
  · have h := claim_C10_counters_survive.2.2 dbCtrFix "c" "A" []
      ⟨false, true, false⟩ [("A", 5)] rfl rfl rfl
    rw [h]
    norm_num [alookup]


/-! Claim C4. -/

theorem alookup_foldl_aset_not {β : Type} (f : String → β) :
    ∀ (ks : List String) (acc : List (String × β)) (A : String), A ∉ ks →
      alookup (ks.foldl (fun a k => aset a k (f k)) acc) A = alookup acc A := by
  intro ks
  induction ks with
  | nil => intro acc A _; rfl
  | cons k t ih =>
    intro acc A hA
    rw [List.foldl_cons]
    rw [ih _ A (fun h => hA (List.mem_cons_of_mem _ h))]
    refine alookup_aset_ne _ _ ?_
    intro h
    subst h
    exact hA (List.mem_cons_self _ _)

theorem alookup_foldl_aset {β : Type} (f : String → β) :
    ∀ (ks : List String) (acc : List (String × β)) (A : String), A ∈ ks →
      alookup (ks.foldl (fun a k => aset a k (f k)) acc) A = some (f A) := by
  intro ks
  induction ks with
  | nil => intro acc A h; cases h
  | cons k t ih =>
    intro acc A hA
    rw [List.foldl_cons]
    by_cases hT : A ∈ t
    · exact ih _ A hT
    · have hk : k = A := by
        rcases List.mem_cons.mp hA with h | h
        · exact h.symm
        · exact absurd h hT
      subst hk
      rw [alookup_foldl_aset_not f t _ k hT]
      exact alookup_aset_self _ _ _

/-- Claim C4 counterexample: a group holding no numeric value for the
averaged attribute yields the NaN of the unguarded division by a zero
count, not the null the claim demands; shown both without grouping and for
a group produced by groupBy. -/
theorem claim_C4_counterexample :
    aggAverage { averageL := ["v"] } [[("v", JsVal.str (strCodes "x"))]] =
      [[("v", AggVal.nanA)]] ∧
    aggAverage { groupByL := ["g"], averageL := ["v"] }
        [[("g", JsVal.str (strCodes "a")), ("v", JsVal.str (strCodes "x"))]] =
      [[("g", AggVal.ofJs (JsVal.str (strCodes "a"))), ("v", AggVal.nanA)]] ∧
    AggVal.nanA ≠ AggVal.ofJs JsVal.nullV :=
  ⟨by decide, by decide, by decide⟩

/-- Claim C4 amended: every record the average stage outputs belongs to a
group drawn from the query results, and its value for each averaged
attribute is the arithmetic sum of the numeric values of that attribute
over the group divided by the count of numeric values encountered, never
by the group size; a group holding no numeric value for the attribute
yields NaN, the 0/0 of the unguarded in-place division, not null; the
concrete conjuncts check the worked grouped example and that the divisor
is the numeric count and not the group size. -/
theorem claim_C4_average :
    (∀ (o : AggOptions) (results : List Rec) (A : String) (out : AggRec),
      A ∈ o.averageL → out ∈ aggAverage o results →
      ∃ g : List Rec, (∀ r ∈ g, r ∈ results) ∧
        alookup out A = some (avgVal g A) ∧
        (avgVal g A = .nanA ∨ ∃ q : ℚ, avgVal g A = .ofJs (.num q))) ∧
    (aggAverage { groupByL := ["g"], averageL := ["v"] }
        [[("g", JsVal.str (strCodes "a")), ("v", JsVal.num 1)],
         [("g", JsVal.str (strCodes "a")), ("v", JsVal.num 3)],
         [("g", JsVal.str (strCodes "b")), ("v", JsVal.num 5)]] =
      [[("g", AggVal.ofJs (JsVal.str (strCodes "a"))), ("v", AggVal.ofJs (JsVal.num 2))],
       [("g", AggVal.ofJs (JsVal.str (strCodes "b"))), ("v", AggVal.ofJs (JsVal.num 5))]]) ∧
    (aggAverage { averageL := ["v"] }
        [[("v", JsVal.num 1)], [("v", JsVal.str (strCodes "x"))], [("v", JsVal.num 5)]] =
      [[("v", AggVal.ofJs (JsVal.num 3))]]) := by
  refine ⟨?_, ?_, ?_⟩
  · intro o results A out hA hout
    unfold aggAverage at hout
    rw [List.mem_map] at hout
    obtain ⟨g, hg, rfl⟩ := hout
    refine ⟨g, ?_, ?_, ?_⟩
    · by_cases hB : o.groupByL.isEmpty
      · rw [if_pos hB] at hg
        rcases List.mem_singleton.mp hg with rfl
        exact fun r hr => hr
      · rw [if_neg hB] at hg
        rw [List.mem_map] at hg
        obtain ⟨key, hkey, rfl⟩ := hg
        exact fun r hr => (List.mem_filter.mp hr).1
    · exact alookup_foldl_aset (avgVal g) o.averageL _ A hA
    · unfold avgVal
      by_cases hn2 : (g.filterMap (fun (r : Rec) =>
          match alookup r A with
          | some (JsVal.num q) => some q
          | _ => none)).isEmpty
      · left
        rw [if_pos hn2]
      · right
        exact ⟨_, by rw [if_neg hn2]⟩
  · simp +decide only [aggAverage, avgVal, dedupKeys, groupKey, alookup, aset, jsDisplay,
      strCodes, List.map, List.filterMap, List.filter, List.foldl, List.sum,
      List.isEmpty, List.headD]
    norm_num
  · simp +decide only [aggAverage, avgVal, dedupKeys, groupKey, alookup, aset, jsDisplay,
      strCodes, List.map, List.filterMap, List.filter, List.foldl, List.sum,
      List.isEmpty, List.headD]
    norm_num

/-- Witness for the amended C4 theorem: its general part applied to the
first output record of the worked grouped example. -/
theorem claim_C4_average_witness :
    ∃ g : List Rec,
      (∀ r ∈ g, r ∈ [[("g", JsVal.str (strCodes "a")), ("v", JsVal.num 1)],
        [("g", JsVal.str (strCodes "a")), ("v", JsVal.num 3)],
        [("g", JsVal.str (strCodes "b")), ("v", JsVal.num 5)]]) ∧
      alookup [("g", AggVal.ofJs (JsVal.str (strCodes "a"))),
          ("v", AggVal.ofJs (JsVal.num 2))] "v" =
        some (avgVal g "v") ∧
      (avgVal g "v" = .nanA ∨ ∃ q : ℚ, avgVal g "v" = .ofJs (.num q)) := by
  apply claim_C4_average.1 { groupByL := ["g"], averageL := ["v"] } _ "v" _ (by decide)
  rw [claim_C4_average.2.1]
  decide

end SailsMemory
